import Mathlib

/-!
Verification of the real-time chat backend (FastAPI + Redis pub/sub).

This file shallowly embeds the connection-management core of the repository:

* `backend/websocket_manager.py` — `ConnectionManager.connect`, `disconnect`,
  `send_personal_message`, `broadcast_to_channel`, `is_user_connected`,
  `is_user_in_channel`, and `websocket_auth`;
* `backend/main.py` — the `/ws/chat` endpoint handshake and its per-frame
  receive-loop body;
* `backend/crud.py` / `backend/models.py` — `create_message`,
  `update_message_status`, `mark_messages_as_read`, `MessageStatus`.

Python dicts are modelled as association lists over `Nat` keys (first
occurrence wins, like a dict with unique keys); Python sets are modelled as
duplicate-free `List Nat`.  The Redis collaborator is modelled by the set of
channel ids this process holds a pub/sub subscription for (`brokerSubs`, the
keys of `RedisClient.pubsub_clients`), the shared `online_users` set
(`online`), and a most-recent-first log of the external effects the code
performs (subscribe/unsubscribe/sadd/srem/publish/socket writes/closes).

The websocket transport is external (Starlette); a socket is modelled by the
observable behaviour the source branches on: whether `accept()` succeeds,
whether `send_json` succeeds, and whether the client state reports
DISCONNECTED.  `send_json` on a socket with `sendOk = false` raises, which the
source catches in the corresponding `except` blocks.  Wall-clock data
(`time.time()`, `created_at`) is not modelled.
-/

/-- `dget k l` is Python `l[k]`/`l.get(k)` on a dict modelled as an
association list: the value of the first pair whose key is `k`. -/
def dget (k : Nat) : List (Nat × α) → Option α
  | [] => none
  | (k', v) :: t => if k' = k then some v else dget k t

/-- `dinsert k v l` is Python `l[k] = v`: replace the binding of `k`
(first occurrence) or append a new binding. -/
def dinsert (k : Nat) (v : α) : List (Nat × α) → List (Nat × α)
  | [] => [(k, v)]
  | (k', v') :: t => if k' = k then (k, v) :: t else (k', v') :: dinsert k v t

/-- `derase k l` is Python `del l[k]`: drop the first binding of `k`. -/
def derase (k : Nat) : List (Nat × α) → List (Nat × α)
  | [] => []
  | (k', v') :: t => if k' = k then t else (k', v') :: derase k t

/-- Python `set.add` on a set modelled as a duplicate-free list. -/
def saddL (x : Nat) (l : List Nat) : List Nat :=
  if x ∈ l then l else l ++ [x]

/-- Python `set.remove` / Redis `SREM`: drop the first occurrence of `x`. -/
def sremL (x : Nat) : List Nat → List Nat
  | [] => []
  | y :: t => if y = x then t else y :: sremL x t

/-- The keys of an association list are duplicate-free (true of any state
built from Python dicts). -/
abbrev keysNodup (l : List (Nat × α)) : Prop := (l.map Prod.fst).Nodup

/-- A live websocket as the manager observes it: `acceptOk` — `accept()`
succeeds; `sendOk` — `send_json` succeeds (otherwise it raises);
`disconnected` — whether the underlying transport is in fact closed.
`send_personal_message` never reads `disconnected`: the only place the
source looks at the client state is its write guard at line 119, and that
guard is the constant modelled by `client_state_DISCONNECTED_truthy`. -/
structure WSocket where
  id : Nat
  acceptOk : Bool
  sendOk : Bool
  disconnected : Bool
deriving DecidableEq, Repr

/-- `models.MessageStatus`. -/
inductive MessageStatus where
  | sent
  | delivered
  | read
deriving DecidableEq, Repr

/-- Position of a status along SENT → DELIVERED → READ. -/
def statusRank : MessageStatus → Nat
  | .sent => 0
  | .delivered => 1
  | .read => 2

/-- The payload of an outbound `message` frame, built in
`main.websocket_endpoint` from the persisted `models.Message` row
(`created_at`, wall-clock data, is not modelled). -/
structure MsgPayload where
  id : Nat
  content : String
  sender_id : Nat
  channel_id : Nat
  status : MessageStatus
deriving DecidableEq, Repr

/-- An outbound frame: the `message_type` discriminator of the JSON objects
the backend sends, with its kind-specific data. -/
inductive OutEvent where
  | message (p : MsgPayload)
  | notification (s : String)
  | connectionStatus (channel : Nat)
  | error (s : String)
deriving DecidableEq, Repr

/-- One external effect performed by the code, in the order performed
(the log below is most-recent-first).  `wsDeliver u c e ok` records a
`send_json` attempt of `e` on the socket registered for `(u, c)`, `ok`
recording whether it succeeded or raised. -/
inductive Eff where
  | subscribe (channel : Nat)
  | unsubscribe (channel : Nat)
  | saddOnline (user : Nat)
  | sremOnline (user : Nat)
  | publish (channel : Nat) (e : OutEvent)
  | wsDeliver (user channel : Nat) (e : OutEvent) (ok : Bool)
  | closeWS (code : Nat)
deriving DecidableEq, Repr

/-- The `ConnectionManager` registries: `active_connections`,
`connection_status`, `channel_subscribers`. -/
structure Manager where
  active : List (Nat × List (Nat × WSocket))
  status : List (Nat × List (Nat × Bool))
  subs : List (Nat × List Nat)
deriving DecidableEq, Repr

/-- The state a single server process acts on: the manager registries plus
the modelled Redis collaborator (online set, channels with a live pub/sub
subscription) and the effect log (most recent first). -/
structure World where
  mgr : Manager
  online : List Nat
  brokerSubs : List Nat
  log : List Eff
deriving DecidableEq, Repr

/-- The empty process state (fresh `ConnectionManager`, empty Redis sets,
nothing performed yet). -/
def w0 : World := ⟨⟨[], [], []⟩, [], [], []⟩

/-- The local subscriber set of a channel
(`channel_subscribers.get(c, set())`). -/
def subsOf (m : Manager) (c : Nat) : List Nat :=
  (dget c m.subs).getD []

/-- Whether `(u, c)` has a registered session
(`u in active_connections and c in active_connections[u]`). -/
def hasSession (m : Manager) (u c : Nat) : Bool :=
  match dget u m.active with
  | some chans => (dget c chans).isSome
  | none => false

/-- `ConnectionManager.connect` (websocket_manager.py lines 26-80).
`accept()` raising skips everything; the registry mutations of the critical
section (lines 31-46) always precede the confirmation `send_json` (line 49);
the Redis subscribe (lines 58-67) and `online_users` add (line 70) run only
if that confirmation send did not raise, because the surrounding `try` jumps
to the `except` logger otherwise. -/
def connect (w : World) (ws : WSocket) (u c : Nat) : World :=
  if !ws.acceptOk then w
  else
    let m := w.mgr
    let act := dinsert u (dinsert c ws ((dget u m.active).getD [])) m.active
    let st := dinsert u (dinsert c true ((dget u m.status).getD [])) m.status
    let subs := dinsert c (saddL u ((dget c m.subs).getD [])) m.subs
    let m' : Manager := ⟨act, st, subs⟩
    let w₁ : World :=
      { w with mgr := m',
               log := Eff.wsDeliver u c (OutEvent.connectionStatus c) ws.sendOk :: w.log }
    if !ws.sendOk then w₁
    else
      let w₂ :=
        if (subsOf m' c).length == 1 then
          { w₁ with brokerSubs := saddL c w₁.brokerSubs, log := Eff.subscribe c :: w₁.log }
        else w₁
      { w₂ with online := saddL u w₂.online, log := Eff.saddOnline u :: w₂.log }

/-- Lines 87-88 of `disconnect`: set `connection_status[u][c] = False`
when both keys exist. -/
def statusFalse (m : Manager) (u c : Nat) : Manager :=
  match dget u m.status with
  | some smap =>
      if (dget c smap).isSome then { m with status := dinsert u (dinsert c false smap) m.status }
      else m
  | none => m

/-- Lines 92-98 of `disconnect`: delete the `(u, c)` connection; if it was
`u`'s last one, drop `u`'s rows of both registries and SREM `u` from the
shared `online_users` set. -/
def dropSession (w : World) (u c : Nat) : World :=
  let m := w.mgr
  let chans' := derase c ((dget u m.active).getD [])
  if chans'.isEmpty then
    { w with mgr := { m with active := derase u m.active, status := derase u m.status },
             online := sremL u w.online,
             log := Eff.sremOnline u :: w.log }
  else
    { w with mgr := { m with active := dinsert u chans' m.active } }

/-- Lines 101-107 of `disconnect`: remove `u` from the channel's subscriber
set and tear the Redis subscription down when the set empties.  When `u` is
not in the set, Python `set.remove` raises `KeyError`, which the `except` at
line 110 swallows — everything already done stands and nothing further
happens, so that branch leaves the state unchanged. -/
def subsRemove (w : World) (u c : Nat) : World :=
  match dget c w.mgr.subs with
  | some l =>
      if u ∈ l then
        let l' := sremL u l
        if l'.isEmpty then
          { w with mgr := { w.mgr with subs := derase c w.mgr.subs },
                   brokerSubs := sremL c w.brokerSubs,
                   log := Eff.unsubscribe c :: w.log }
        else
          { w with mgr := { w.mgr with subs := dinsert c l' w.mgr.subs } }
      else w
  | none => w

/-- `ConnectionManager.disconnect` (lines 82-111): the status write always
runs; the connection removal, online-set cleanup and subscriber removal run
only when the `(u, c)` connection is actually registered. -/
def disconnect (w : World) (u c : Nat) : World :=
  let w₁ : World := { w with mgr := statusFalse w.mgr u c }
  match dget u w₁.mgr.active with
  | some chans =>
      if (dget c chans).isSome then subsRemove (dropSession w₁ u c) u c
      else w₁
  | none => w₁

/-- The transport-write guard of `send_personal_message`, line 119:
`not websocket.client_state.DISCONNECTED`.  `websocket.client_state` is a
Starlette `WebSocketState` enum member, and `.DISCONNECTED` is an attribute
access on that member — it yields the `WebSocketState.DISCONNECTED` enum
member itself, never a comparison with it.  Enum members are truthy in
Python, so the accessed value is constant-truthy and the whole guard is the
constant `False`. -/
def client_state_DISCONNECTED_truthy : Bool := true

/-- `ConnectionManager.send_personal_message` (lines 113-131).  The write
guard at line 119 is constant-`False` (see
`client_state_DISCONNECTED_truthy`), so for every registered session the
`send_json` / `return True` branch at lines 120-121 is dead code and the
`else` branch runs: the session is disconnected and the function falls
through to `return False`.  An unregistered session returns `False` with no
side effect.  The dead branch is kept as the source writes it: a successful
write would log the delivery and return `True`, and a raising one would be
caught by the `except` at line 125, which disconnects and falls through to
`return False`. -/
def send_personal_message (w : World) (e : OutEvent) (u c : Nat) : World × Bool :=
  match dget u w.mgr.active with
  | some chans =>
      match dget c chans with
      | some ws =>
          if !client_state_DISCONNECTED_truthy then
            if ws.sendOk then
              ({ w with log := Eff.wsDeliver u c e true :: w.log }, true)
            else
              (disconnect { w with log := Eff.wsDeliver u c e false :: w.log } u c, false)
          else
            (disconnect w u c, false)
      | none => (w, false)
  | none => (w, false)

/-- One iteration of the `broadcast_to_channel` loop body (lines 138-142):
send to the user; if that failed and the user is still in the live
subscriber set, disconnect them. -/
def bstep (e : OutEvent) (c : Nat) (w : World) (u : Nat) : World :=
  let p := send_personal_message w e u c
  if !p.2 && decide (u ∈ subsOf p.1.mgr c) then disconnect p.1 u c else p.1

/-- The `broadcast_to_channel` loop over the snapshot list. -/
def broadcastAux (e : OutEvent) (c : Nat) : World → List Nat → World
  | w, [] => w
  | w, u :: rest => broadcastAux e c (bstep e c w u) rest

/-- `ConnectionManager.broadcast_to_channel` (lines 133-142): iterate a copy
(`list(...)`) of the channel's subscriber set taken at call time. -/
def broadcast_to_channel (w : World) (c : Nat) (e : OutEvent) : World :=
  match dget c w.mgr.subs with
  | some snap => broadcastAux e c w snap
  | none => w

/-- `ConnectionManager.is_user_connected` (lines 144-148). -/
def is_user_connected (m : Manager) (u : Nat) : Bool :=
  match dget u m.status with
  | none => false
  | some smap => smap.any (fun p => p.2)

/-- `ConnectionManager.is_user_in_channel` (lines 150-154). -/
def is_user_in_channel (m : Manager) (u c : Nat) : Bool :=
  match dget u m.status with
  | none => false
  | some smap => (dget c smap).getD false

/-- One operation on the singleton `ConnectionManager`. -/
inductive Op where
  | connect (ws : WSocket) (u c : Nat)
  | disconnect (u c : Nat)
  | send (e : OutEvent) (u c : Nat)
  | broadcast (c : Nat) (e : OutEvent)
deriving DecidableEq, Repr

/-- Apply one operation. -/
def stepOp (w : World) : Op → World
  | .connect ws u c => connect w ws u c
  | .disconnect u c => disconnect w u c
  | .send e u c => (send_personal_message w e u c).1
  | .broadcast c e => broadcast_to_channel w c e

/-- Run a sequence of operations from a state. -/
def runOps (w : World) : List Op → World
  | [] => w
  | op :: t => runOps (stepOp w op) t

/-- A connect whose confirmation `send_json` succeeds (the socket is healthy
at handshake time); other operations are unrestricted. -/
def goodOp : Op → Bool
  | .connect ws _ _ => ws.sendOk
  | _ => true

/-- Registry key sets and subscriber lists are duplicate-free — true of any
state built from Python dicts and sets. -/
abbrev Tidy (m : Manager) : Prop :=
  keysNodup m.active ∧ (∀ p ∈ m.active, keysNodup p.2) ∧
  keysNodup m.status ∧ (∀ p ∈ m.status, keysNodup p.2) ∧
  keysNodup m.subs ∧ (∀ p ∈ m.subs, p.2.Nodup)

/-- Every `connection_status` entry holding `True` corresponds to a
registered connection — maintained by `connect`/`disconnect`, which write
`True` with the connection and `False` when it goes. -/
abbrev statusSessionOk (m : Manager) : Prop :=
  ∀ p ∈ m.status, ∀ q ∈ p.2, q.2 = true → hasSession m p.1 q.1 = true

/-- Every member of a channel's subscriber set has a registered connection
to that channel. -/
abbrev subsSessionOk (m : Manager) : Prop :=
  ∀ p ∈ m.subs, ∀ u ∈ p.2, hasSession m u p.1 = true

/-- `crud.MessageStatus`-carrying `models.Message` row (`created_at` not
modelled). -/
structure Msg where
  id : Nat
  content : String
  sender_id : Nat
  channel_id : Nat
  status : MessageStatus
deriving DecidableEq, Repr

/-- The persistence collaborator's state as the claims need it: channel
membership rows, message rows, and the autoincrement counter the database
assigns `Message.id` from. -/
structure DB where
  channels : List (Nat × List Nat)
  messages : List Msg
  nextMsgId : Nat
deriving DecidableEq, Repr

/-- `crud.create_message` (crud.py lines 102-113): a new row with the given
content, sender and channel, status `SENT`, id assigned by the database. -/
def create_message (db : DB) (content : String) (channel_id sender_id : Nat) : Msg × DB :=
  let m : Msg := ⟨db.nextMsgId, content, sender_id, channel_id, .sent⟩
  (m, { db with messages := db.messages ++ [m], nextMsgId := db.nextMsgId + 1 })

/-- Set the status of the first row with the given id. -/
def setFirst (mid : Nat) (st : MessageStatus) : List Msg → List Msg
  | [] => []
  | m :: t => if m.id = mid then { m with status := st } :: t else m :: setFirst mid st t

/-- `crud.update_message_status` (lines 126-133): write the requested status
into the row with that id, whatever the current status is. -/
def update_message_status (db : DB) (mid : Nat) (st : MessageStatus) : DB :=
  { db with messages := setFirst mid st db.messages }

/-- `crud.mark_messages_as_read` (lines 135-152): set to READ every message
of the channel that is from another sender and not READ yet. -/
def mark_messages_as_read (db : DB) (channel_id user_id : Nat) : DB :=
  { db with messages := db.messages.map (fun m =>
      if m.channel_id = channel_id && m.sender_id != user_id && m.status != .read
      then { m with status := .read } else m) }

/-- One inbound frame of the receive loop, together with the external
outcomes its processing depends on: `malformed` — `json.loads` or the
`content` field access raises; `content s persistOk` — the frame decodes to
content `s` and `persistOk` records whether the persistence collaborator's
commit inside `create_message` succeeds (a failed commit raises and stores
nothing). -/
inductive Frame where
  | malformed
  | content (s : String) (persistOk : Bool)
deriving DecidableEq, Repr

/-- The `except Exception` arm of the receive loop (main.py lines 209-219):
report the failure to the same session as an `error` event; if even that
send raises, the connection is treated as gone (`raise WebSocketDisconnect`)
and the loop ends. -/
def errorReply (w : World) (db : DB) (wsOk : Bool) (u c : Nat) : World × DB × Bool :=
  if wsOk then
    ({ w with log := Eff.wsDeliver u c (OutEvent.error "Error processing your message") true :: w.log },
     db, true)
  else
    ({ w with log := Eff.wsDeliver u c (OutEvent.error "Error processing your message") false :: w.log },
     db, false)

/-- One iteration of the receive loop of `main.websocket_endpoint`
(lines 175-219) for user `u` on channel `c`: decode the frame, persist it
via `create_message`, publish the resulting canonical payload to the
channel's broker topic; any decode/persistence failure goes to `errorReply`.
`wsOk` is whether a `send_json` on this session's socket would succeed now.
The returned `Bool` is whether the loop continues. -/
def processFrame (w : World) (db : DB) (wsOk : Bool) (u c : Nat) : Frame → World × DB × Bool
  | .content s true =>
      let r := create_message db s c u
      let payload : MsgPayload :=
        ⟨r.1.id, r.1.content, r.1.sender_id, r.1.channel_id, r.1.status⟩
      ({ w with log := Eff.publish c (OutEvent.message payload) :: w.log }, r.2, true)
  | .content _ false => errorReply w db wsOk u c
  | .malformed => errorReply w db wsOk u c

/-- `websocket_manager.websocket_auth` (lines 159-170): `authUser` is the
outcome of `auth.get_user_from_token` (the external Auth collaborator —
`none` for a bad or missing credential, in which case the socket is closed
with policy-violation code 1008 and no user is returned). -/
def websocket_auth (w : World) (authUser : Option Nat) : World × Option Nat :=
  match authUser with
  | none => ({ w with log := Eff.closeWS 1008 :: w.log }, none)
  | some u => (w, some u)

/-- The authenticated user is not a member of the requested channel (or the
channel does not exist) in the persistence collaborator's state. -/
def notAuthorized (db : DB) (u c : Nat) : Prop :=
  match dget c db.channels with
  | some members => u ∉ members
  | none => True

instance (db : DB) (u c : Nat) : Decidable (notAuthorized db u c) := by
  unfold notAuthorized
  cases dget c db.channels <;> simp <;> infer_instance

/-- The handshake of `main.websocket_endpoint` (lines 148-169):
authenticate; check channel membership, closing with policy-violation code
1008 on failure; on success register the session via `connect` and broadcast
the join notification.  (The `update_user_status` DB write on success is
outside the modelled state.) -/
def wsEndpointHandshake (w : World) (db : DB) (authUser : Option Nat) (ws : WSocket)
    (c : Nat) : World × Option Nat :=
  match websocket_auth w authUser with
  | (w₁, none) => (w₁, none)
  | (w₁, some u) =>
      match dget c db.channels with
      | some members =>
          if u ∈ members then
            (broadcast_to_channel (connect w₁ ws u c) c
              (OutEvent.notification "user joined the chat"), some u)
          else ({ w₁ with log := Eff.closeWS 1008 :: w₁.log }, none)
      | none => ({ w₁ with log := Eff.closeWS 1008 :: w₁.log }, none)

/-- A healthy socket. -/
def wsGood : WSocket := ⟨0, true, true, false⟩

/-- A socket accepted fine but whose `send_json` raises (client went away
right after the handshake). -/
def wsBadSend : WSocket := ⟨1, true, false, false⟩


/-- The user-key sets of `active_connections` and `connection_status`
agree (each key of one is a key of the other). -/
abbrev KeyEq (m : Manager) : Prop :=
  (∀ p ∈ m.active, (dget p.1 m.status).isSome = true) ∧
  (∀ p ∈ m.status, (dget p.1 m.active).isSome = true)

/-- The channel-subscription invariant state: subscriber-set entries are
non-empty and correspond one-to-one with the channels this process holds a
broker subscription for. -/
abbrev BrokerOk (w : World) : Prop :=
  keysNodup w.mgr.subs ∧ w.brokerSubs.Nodup ∧
  (∀ p ∈ w.mgr.subs, p.2 ≠ [] ∧ p.1 ∈ w.brokerSubs) ∧
  (∀ c ∈ w.brokerSubs, (dget c w.mgr.subs).isSome = true)

/-- The presence invariant state: the registries are tidy and mutually
consistent, active rows are non-empty, and the shared online set holds
exactly the users with a registered connection. -/
abbrev PresenceOk (w : World) : Prop :=
  Tidy w.mgr ∧ statusSessionOk w.mgr ∧
  (∀ p ∈ w.mgr.active, p.2 ≠ []) ∧
  (∀ p ∈ w.mgr.active, ∀ q ∈ p.2, is_user_in_channel w.mgr p.1 q.1 = true) ∧
  (∀ x ∈ w.online, (dget x w.mgr.active).isSome = true) ∧
  (∀ p ∈ w.mgr.active, p.1 ∈ w.online) ∧
  w.online.Nodup

/-! ### Association-list and set lemmas -/

theorem dget_dinsert_self {α : Type u} (k : Nat) (v : α) (l : List (Nat × α)) :
    dget k (dinsert k v l) = some v := by
  induction l with
  | nil => simp [dget, dinsert]
  | cons p t ih =>
      by_cases h : p.1 = k
      · simp [dinsert, dget, h]
      · simpa [dinsert, dget, h] using ih

theorem dget_dinsert_ne {α : Type u} {k' k : Nat} (h : k' ≠ k) (v : α) (l : List (Nat × α)) :
    dget k' (dinsert k v l) = dget k' l := by
  have h' : ¬k = k' := fun he => h he.symm
  induction l with
  | nil => simp [dget, dinsert, h']
  | cons p t ih =>
      by_cases hp : p.1 = k
      · subst hp
        simp [dinsert, dget, h']
      · by_cases hp' : p.1 = k'
        · simp [dinsert, dget, hp, hp', h]
        · simp [dinsert, dget, hp, hp', ih]

theorem dinsert_id {α : Type u} {k : Nat} {v : α} {l : List (Nat × α)}
    (h : dget k l = some v) : dinsert k v l = l := by
  induction l with
  | nil => simp [dget] at h
  | cons p t ih =>
      obtain ⟨k₀, v₀⟩ := p
      by_cases hp : k₀ = k
      · simp_all [dget, dinsert]
      · simp [dget, hp] at h
        simp [dinsert, hp, ih h]

theorem dget_mem {α : Type u} {k : Nat} {v : α} {l : List (Nat × α)}
    (h : dget k l = some v) : (k, v) ∈ l := by
  induction l with
  | nil => simp [dget] at h
  | cons p t ih =>
      obtain ⟨k₀, v₀⟩ := p
      by_cases hp : k₀ = k
      · simp_all [dget]
      · simp [dget, hp] at h
        exact List.mem_cons_of_mem _ (ih h)

theorem mem_keys_of_dget {α : Type u} {k : Nat} {v : α} {l : List (Nat × α)}
    (h : dget k l = some v) : k ∈ l.map Prod.fst :=
  List.mem_map.mpr ⟨(k, v), dget_mem h, rfl⟩

theorem dget_none_of_not_mem_keys {α : Type u} {k : Nat} {l : List (Nat × α)}
    (h : k ∉ l.map Prod.fst) : dget k l = none := by
  induction l with
  | nil => simp [dget]
  | cons p t ih =>
      simp only [List.map_cons, List.mem_cons] at h
      push_neg at h
      have h1 : ¬p.1 = k := fun he => h.1 he.symm
      simp [dget, h1, ih h.2]

theorem dget_isSome_iff_mem_keys {α : Type u} (k : Nat) (l : List (Nat × α)) :
    (dget k l).isSome = true ↔ k ∈ l.map Prod.fst := by
  induction l with
  | nil => simp [dget]
  | cons p t ih =>
      by_cases hp : p.1 = k
      · simp [dget, hp]
      · have hp' : ¬k = p.1 := fun he => hp he.symm
        simp [dget, hp, hp', ih]

theorem mem_dinsert {α : Type u} {p : Nat × α} {k : Nat} {v : α} {l : List (Nat × α)}
    (h : p ∈ dinsert k v l) : p = (k, v) ∨ p ∈ l := by
  induction l with
  | nil => simpa [dinsert] using h
  | cons q t ih =>
      by_cases hq : q.1 = k
      · rcases (by simpa [dinsert, hq] using h : p = (k, v) ∨ p ∈ t) with h' | h'
        · exact Or.inl h'
        · exact Or.inr (List.mem_cons_of_mem _ h')
      · rcases (by simpa [dinsert, hq] using h : p = q ∨ p ∈ dinsert k v t) with h' | h'
        · exact Or.inr (by simp [h'])
        · rcases ih h' with h'' | h''
          · exact Or.inl h''
          · exact Or.inr (List.mem_cons_of_mem _ h'')

theorem keys_dinsert_of_dget {α : Type u} {k : Nat} {v' : α} {l : List (Nat × α)}
    (h : dget k l = some v') (v : α) :
    (dinsert k v l).map Prod.fst = l.map Prod.fst := by
  induction l with
  | nil => simp [dget] at h
  | cons q t ih =>
      by_cases hq : q.1 = k
      · simp [dinsert, hq]
      · simp [dget, hq] at h
        simp [dinsert, hq, ih h]

theorem keys_dinsert_of_none {α : Type u} {k : Nat} {l : List (Nat × α)}
    (h : dget k l = none) (v : α) :
    (dinsert k v l).map Prod.fst = l.map Prod.fst ++ [k] := by
  induction l with
  | nil => simp [dinsert]
  | cons q t ih =>
      by_cases hq : q.1 = k
      · simp [dget, hq] at h
      · simp [dget, hq] at h
        simp [dinsert, hq, ih h]

theorem keysNodup_dinsert {α : Type u} {l : List (Nat × α)} (hn : keysNodup l)
    (k : Nat) (v : α) : keysNodup (dinsert k v l) := by
  cases h : dget k l with
  | some v' => unfold keysNodup; rw [keys_dinsert_of_dget h]; exact hn
  | none =>
      unfold keysNodup
      rw [keys_dinsert_of_none h]
      have hk : k ∉ l.map Prod.fst := by
        intro hmem
        have h2 := (dget_isSome_iff_mem_keys k l).mpr hmem
        rw [h] at h2
        simp at h2
      refine List.Nodup.append hn (List.nodup_singleton k) ?_
      intro x hx hx'
      simp only [List.mem_singleton] at hx'
      exact hk (hx' ▸ hx)

theorem mem_dinsert_nodup {α : Type u} {p : Nat × α} {k : Nat} {v : α} {l : List (Nat × α)}
    (hn : keysNodup l) (h : p ∈ dinsert k v l) : p = (k, v) ∨ (p ∈ l ∧ p.1 ≠ k) := by
  induction l with
  | nil => simpa [dinsert] using h
  | cons q t ih =>
      have hn' : (q.1 :: t.map Prod.fst).Nodup := by simpa only [keysNodup, List.map_cons] using hn
      rcases List.nodup_cons.mp hn' with ⟨hq', hnt⟩
      by_cases hq : q.1 = k
      · rcases (by simpa [dinsert, hq] using h : p = (k, v) ∨ p ∈ t) with h' | h'
        · exact Or.inl h'
        · refine Or.inr ⟨List.mem_cons_of_mem _ h', fun hpk => ?_⟩
          exact hq' (by rw [hq, ← hpk]; exact List.mem_map.mpr ⟨p, h', rfl⟩)
      · rcases (by simpa [dinsert, hq] using h : p = q ∨ p ∈ dinsert k v t) with h' | h'
        · exact Or.inr ⟨by simp [h'], by rw [h']; exact hq⟩
        · rcases ih hnt h' with h'' | h''
          · exact Or.inl h''
          · exact Or.inr ⟨List.mem_cons_of_mem _ h''.1, h''.2⟩

theorem dget_derase_ne {α : Type u} {k' k : Nat} (h : k' ≠ k) (l : List (Nat × α)) :
    dget k' (derase k l) = dget k' l := by
  have h' : ¬k = k' := fun he => h he.symm
  induction l with
  | nil => simp [derase]
  | cons q t ih =>
      by_cases hq : q.1 = k
      · subst hq
        simp [derase, dget, h']
      · simp [derase, dget, hq, ih]

theorem mem_derase {α : Type u} {p : Nat × α} {k : Nat} {l : List (Nat × α)}
    (h : p ∈ derase k l) : p ∈ l := by
  induction l with
  | nil => simpa [derase] using h
  | cons q t ih =>
      by_cases hq : q.1 = k
      · simp [derase, hq] at h
        exact List.mem_cons_of_mem _ h
      · rcases (by simpa [derase, hq] using h : p = q ∨ p ∈ derase k t) with h' | h'
        · simp [h']
        · exact List.mem_cons_of_mem _ (ih h')

theorem keys_derase_sublist {α : Type u} (k : Nat) (l : List (Nat × α)) :
    ((derase k l).map Prod.fst).Sublist (l.map Prod.fst) := by
  induction l with
  | nil => simp [derase]
  | cons q t ih =>
      by_cases hq : q.1 = k
      · simpa [derase, hq] using List.sublist_cons_self q.1 (t.map Prod.fst)
      · simpa [derase, hq] using ih.cons₂ q.1

theorem keysNodup_derase {α : Type u} {l : List (Nat × α)} (hn : keysNodup l) (k : Nat) :
    keysNodup (derase k l) :=
  (keys_derase_sublist k l).nodup hn

theorem dget_derase_self {α : Type u} {l : List (Nat × α)} (hn : keysNodup l) (k : Nat) :
    dget k (derase k l) = none := by
  induction l with
  | nil => simp [derase, dget]
  | cons q t ih =>
      have hn' : (q.1 :: t.map Prod.fst).Nodup := by simpa only [keysNodup, List.map_cons] using hn
      rcases List.nodup_cons.mp hn' with ⟨hq', hnt⟩
      by_cases hq : q.1 = k
      · subst hq
        simpa [derase] using dget_none_of_not_mem_keys hq'
      · simp [derase, dget, hq, ih hnt]

theorem mem_derase_nodup {α : Type u} {p : Nat × α} {k : Nat} {l : List (Nat × α)}
    (hn : keysNodup l) (h : p ∈ derase k l) : p ∈ l ∧ p.1 ≠ k := by
  have hin : p ∈ l := mem_derase h
  refine ⟨hin, ?_⟩
  intro hpk
  have hnone : dget k (derase k l) = none := dget_derase_self hn k
  have hmem0 : p.1 ∈ (derase k l).map Prod.fst := List.mem_map.mpr ⟨p, h, rfl⟩
  have hmem : k ∈ (derase k l).map Prod.fst := by rw [hpk] at hmem0; exact hmem0
  have h2 := (dget_isSome_iff_mem_keys k (derase k l)).mpr hmem
  rw [hnone] at h2
  simp at h2

theorem mem_saddL {x y : Nat} {l : List Nat} (h : x ∈ saddL y l) : x = y ∨ x ∈ l := by
  unfold saddL at h
  split at h
  · exact Or.inr h
  · rcases List.mem_append.mp h with h' | h'
    · exact Or.inr h'
    · exact Or.inl (by simpa using h')

theorem mem_saddL_self (y : Nat) (l : List Nat) : y ∈ saddL y l := by
  unfold saddL
  split
  · assumption
  · simp

theorem mem_saddL_of_mem {x : Nat} {l : List Nat} (h : x ∈ l) (y : Nat) : x ∈ saddL y l := by
  unfold saddL
  split <;> simp [h]

theorem nodup_saddL {l : List Nat} (hn : l.Nodup) (y : Nat) : (saddL y l).Nodup := by
  unfold saddL
  split
  · exact hn
  · simpa [List.nodup_append] using ⟨hn, by assumption⟩

theorem mem_of_mem_sremL {x y : Nat} {l : List Nat} (h : x ∈ sremL y l) : x ∈ l := by
  induction l with
  | nil => simpa [sremL] using h
  | cons z t ih =>
      by_cases hz : z = y
      · simp [sremL, hz] at h
        exact List.mem_cons_of_mem _ h
      · rcases (by simpa [sremL, hz] using h : x = z ∨ x ∈ sremL y t) with h' | h'
        · simp [h']
        · exact List.mem_cons_of_mem _ (ih h')

theorem mem_sremL_of_ne {x y : Nat} {l : List Nat} (hx : x ∈ l) (hne : x ≠ y) :
    x ∈ sremL y l := by
  induction l with
  | nil => simpa using hx
  | cons z t ih =>
      by_cases hz : z = y
      · simp only [sremL, if_pos hz]
        rcases List.mem_cons.mp hx with h' | h'
        · exact absurd (h' ▸ hz) hne
        · exact h'
      · rcases List.mem_cons.mp hx with h' | h'
        · simp [sremL, hz, h']
        · simp [sremL, hz, ih h']

theorem nodup_sremL {l : List Nat} (hn : l.Nodup) (y : Nat) : (sremL y l).Nodup := by
  induction l with
  | nil => simp [sremL]
  | cons z t ih =>
      rcases List.nodup_cons.mp hn with ⟨h1, h2⟩
      by_cases hz : z = y
      · simpa [sremL, hz] using h2
      · simp only [sremL, if_neg hz]
        exact List.nodup_cons.mpr ⟨fun hmem => h1 (mem_of_mem_sremL hmem), ih h2⟩

theorem not_mem_sremL_self {l : List Nat} (hn : l.Nodup) (y : Nat) : y ∉ sremL y l := by
  induction l with
  | nil => simp [sremL]
  | cons z t ih =>
      rcases List.nodup_cons.mp hn with ⟨h1, h2⟩
      by_cases hz : z = y
      · subst hz
        simpa [sremL] using h1
      · intro hmem
        rcases (by simpa [sremL, hz] using hmem : y = z ∨ y ∈ sremL y t) with h' | h'
        · exact hz h'.symm
        · exact ih h2 h'

theorem ne_of_mem_sremL {x y : Nat} {l : List Nat} (hn : l.Nodup) (h : x ∈ sremL y l) :
    x ≠ y :=
  fun he => not_mem_sremL_self hn y (he ▸ h)

/-! ### Structure of `statusFalse`, `dropSession`, `subsRemove`, `disconnect` -/

theorem statusFalse_active (m : Manager) (u c : Nat) :
    (statusFalse m u c).active = m.active := by
  cases hst : dget u m.status with
  | none => simp [statusFalse, hst]
  | some smap =>
      simp only [statusFalse, hst]
      split <;> rfl

theorem statusFalse_subs (m : Manager) (u c : Nat) :
    (statusFalse m u c).subs = m.subs := by
  cases hst : dget u m.status with
  | none => simp [statusFalse, hst]
  | some smap =>
      simp only [statusFalse, hst]
      split <;> rfl

theorem dropSession_subs (w : World) (u c : Nat) :
    (dropSession w u c).mgr.subs = w.mgr.subs := by
  cases hik : (derase c ((dget u w.mgr.active).getD [])).isEmpty <;>
    simp [dropSession, hik]

theorem dropSession_brokerSubs (w : World) (u c : Nat) :
    (dropSession w u c).brokerSubs = w.brokerSubs := by
  cases hik : (derase c ((dget u w.mgr.active).getD [])).isEmpty <;>
    simp [dropSession, hik]

theorem subsRemove_active (w : World) (u c : Nat) :
    (subsRemove w u c).mgr.active = w.mgr.active := by
  unfold subsRemove
  cases dget c w.mgr.subs with
  | none => rfl
  | some l =>
      simp only []
      split
      · split <;> rfl
      · rfl

theorem subsRemove_status (w : World) (u c : Nat) :
    (subsRemove w u c).mgr.status = w.mgr.status := by
  unfold subsRemove
  cases dget c w.mgr.subs with
  | none => rfl
  | some l =>
      simp only []
      split
      · split <;> rfl
      · rfl

theorem subsRemove_online (w : World) (u c : Nat) :
    (subsRemove w u c).online = w.online := by
  unfold subsRemove
  cases dget c w.mgr.subs with
  | none => rfl
  | some l =>
      simp only []
      split
      · split <;> rfl
      · rfl

theorem disconnect_absent_eq {w : World} {u c : Nat} (h : hasSession w.mgr u c = false) :
    disconnect w u c = { w with mgr := statusFalse w.mgr u c } := by
  unfold disconnect
  simp only [statusFalse_active]
  cases hact : dget u w.mgr.active with
  | none => simp [hact]
  | some chans =>
      cases hch : dget c chans with
      | none => simp [hact, hch]
      | some ws => simp [hasSession, hact, hch] at h

theorem disconnect_present_eq {w : World} {u c : Nat} (h : hasSession w.mgr u c = true) :
    disconnect w u c =
      subsRemove (dropSession { w with mgr := statusFalse w.mgr u c } u c) u c := by
  unfold disconnect
  simp only [statusFalse_active]
  cases hact : dget u w.mgr.active with
  | none => simp [hasSession, hact] at h
  | some chans =>
      cases hch : dget c chans with
      | none => simp [hasSession, hact, hch] at h
      | some ws => simp [hact, hch]

theorem dropSession_active_dget_ne {u' u : Nat} (hne : u' ≠ u) (w : World) (c : Nat) :
    dget u' (dropSession w u c).mgr.active = dget u' w.mgr.active := by
  cases hik : (derase c ((dget u w.mgr.active).getD [])).isEmpty with
  | true =>
      simp only [dropSession, hik, if_pos]
      exact dget_derase_ne hne _
  | false =>
      simp only [dropSession, hik]
      simp only [Bool.false_eq_true, if_false]
      exact dget_dinsert_ne hne _ _

theorem dropSession_status_dget_ne {u' u : Nat} (hne : u' ≠ u) (w : World) (c : Nat) :
    dget u' (dropSession w u c).mgr.status = dget u' w.mgr.status := by
  cases hik : (derase c ((dget u w.mgr.active).getD [])).isEmpty with
  | true =>
      simp only [dropSession, hik, if_pos]
      exact dget_derase_ne hne _
  | false =>
      simp only [dropSession, hik]
      simp only [Bool.false_eq_true, if_false]

theorem statusFalse_status_dget_ne {u' u : Nat} (hne : u' ≠ u) (m : Manager) (c : Nat) :
    dget u' (statusFalse m u c).status = dget u' m.status := by
  cases hst : dget u m.status with
  | none => simp [statusFalse, hst]
  | some smap =>
      cases hsc : (dget c smap).isSome with
      | true =>
          simp only [statusFalse, hst, hsc, if_pos]
          exact dget_dinsert_ne hne _ _
      | false => simp [statusFalse, hst, hsc]

theorem disconnect_active_dget_ne {u' u : Nat} (hne : u' ≠ u) (w : World) (c : Nat) :
    dget u' (disconnect w u c).mgr.active = dget u' w.mgr.active := by
  cases hs : hasSession w.mgr u c with
  | false => rw [disconnect_absent_eq hs, statusFalse_active]
  | true =>
      rw [disconnect_present_eq hs, subsRemove_active, dropSession_active_dget_ne hne,
        statusFalse_active]

theorem hasSession_eq_of_active_eq {m m' : Manager} (h : m.active = m'.active)
    (u c : Nat) : hasSession m u c = hasSession m' u c := by
  unfold hasSession
  rw [h]

theorem statusFalse_id {m : Manager} {u c : Nat} (hS : statusSessionOk m)
    (h : hasSession m u c = false) : statusFalse m u c = m := by
  cases hst : dget u m.status with
  | none => simp [statusFalse, hst]
  | some smap =>
      cases hsc : dget c smap with
      | none => simp [statusFalse, hst, hsc]
      | some b =>
          cases b with
          | false =>
              simp only [statusFalse, hst, hsc, Option.isSome_some, if_pos]
              rw [dinsert_id hsc, dinsert_id hst]
          | true =>
              exfalso
              have hp : (u, smap) ∈ m.status := dget_mem hst
              have hq : (c, true) ∈ smap := dget_mem hsc
              have h2 := hS _ hp _ hq rfl
              rw [h] at h2
              exact Bool.noConfusion h2

theorem disconnect_of_absent {w : World} {u c : Nat} (hS : statusSessionOk w.mgr)
    (h : hasSession w.mgr u c = false) : disconnect w u c = w := by
  rw [disconnect_absent_eq h, statusFalse_id hS h]

theorem hasSession_disconnect_self {w : World} {u c : Nat} (hT : Tidy w.mgr) :
    hasSession (disconnect w u c).mgr u c = false := by
  cases hs : hasSession w.mgr u c with
  | false =>
      rw [disconnect_absent_eq hs]
      rw [hasSession_eq_of_active_eq (statusFalse_active w.mgr u c) u c]
      exact hs
  | true =>
      rw [disconnect_present_eq hs]
      unfold hasSession
      rw [subsRemove_active]
      obtain ⟨hA, hAc, _⟩ := hT
      cases hact : dget u w.mgr.active with
      | none => simp [hasSession, hact] at hs
      | some chans =>
          have hkc : keysNodup chans := hAc _ (dget_mem hact)
          cases hik : (derase c ((dget u (statusFalse w.mgr u c).active).getD [])).isEmpty with
          | true =>
              simp only [dropSession, hik, if_pos]
              rw [statusFalse_active]
              rw [dget_derase_self hA u]
          | false =>
              simp only [dropSession, hik]
              simp only [Bool.false_eq_true, if_false]
              rw [statusFalse_active, hact]
              simp only [Option.getD_some]
              rw [dget_dinsert_self]
              show (dget c (derase c chans)).isSome = false
              rw [dget_derase_self hkc c]
              rfl

theorem dget_of_mem_nodup {α : Type u} {p : Nat × α} {l : List (Nat × α)}
    (hn : keysNodup l) (hp : p ∈ l) : dget p.1 l = some p.2 := by
  induction l with
  | nil => simp at hp
  | cons q t ih =>
      have hn' : (q.1 :: t.map Prod.fst).Nodup := by simpa only [keysNodup, List.map_cons] using hn
      rcases List.nodup_cons.mp hn' with ⟨hq', hnt⟩
      rcases List.mem_cons.mp hp with h' | h'
      · subst h'
        simp [dget]
      · have hne : ¬p.1 = q.1 := by
          intro he
          exact hq' (he ▸ List.mem_map.mpr ⟨p, h', rfl⟩)
        have hne' : ¬q.1 = p.1 := fun he => hne he.symm
        simp [dget, hne', ih hnt h']

theorem eq_of_derase_nil {α : Type u} {k : Nat} {l : List (Nat × α)}
    (h : derase k l = []) : l = [] ∨ ∃ v, l = [(k, v)] := by
  cases l with
  | nil => exact Or.inl rfl
  | cons q t =>
      by_cases hq : q.1 = k
      · simp only [derase, if_pos hq] at h
        subst h
        exact Or.inr ⟨q.2, by cases q with | mk a b => simp_all⟩
      · simp [derase, hq] at h

theorem forall_mem_dinsert {α : Type u} {P : Nat × α → Prop} {l : List (Nat × α)}
    {k : Nat} {v : α} (hl : ∀ p ∈ l, P p) (hv : P (k, v)) :
    ∀ p ∈ dinsert k v l, P p :=
  fun p hp => (mem_dinsert hp).elim (fun he => he ▸ hv) (hl p)

theorem forall_mem_derase {α : Type u} {P : Nat × α → Prop} {l : List (Nat × α)}
    {k : Nat} (hl : ∀ p ∈ l, P p) : ∀ p ∈ derase k l, P p :=
  fun p hp => hl p (mem_derase hp)

theorem is_user_in_channel_eq_of_status_eq {m m' : Manager} (h : m.status = m'.status)
    (u c : Nat) : is_user_in_channel m u c = is_user_in_channel m' u c := by
  unfold is_user_in_channel
  rw [h]

theorem statusFalse_keysNodup {m : Manager} (hn : keysNodup m.status) (u c : Nat) :
    keysNodup (statusFalse m u c).status := by
  cases hst : dget u m.status with
  | none => simpa [statusFalse, hst] using hn
  | some smap =>
      cases hsc : (dget c smap).isSome with
      | true =>
          simp only [statusFalse, hst, hsc, if_pos]
          exact keysNodup_dinsert hn u _
      | false => simpa [statusFalse, hst, hsc] using hn

theorem is_user_in_channel_statusFalse_self (m : Manager) (u c : Nat) :
    is_user_in_channel (statusFalse m u c) u c = false := by
  cases hst : dget u m.status with
  | none => simp [statusFalse, is_user_in_channel, hst]
  | some smap =>
      cases hsc : dget c smap with
      | none => simp [statusFalse, is_user_in_channel, hst, hsc]
      | some b =>
          simp only [statusFalse, hst, hsc, Option.isSome_some, if_pos]
          unfold is_user_in_channel
          simp only []
          rw [dget_dinsert_self]
          simp only [Option.getD_some]
          rw [dget_dinsert_self]
          rfl

theorem is_user_in_channel_disconnect_self {w : World} {u c : Nat} (hT : Tidy w.mgr) :
    is_user_in_channel (disconnect w u c).mgr u c = false := by
  obtain ⟨_, _, hSt, _, _, _⟩ := hT
  cases hs : hasSession w.mgr u c with
  | false =>
      rw [disconnect_absent_eq hs]
      exact is_user_in_channel_statusFalse_self w.mgr u c
  | true =>
      rw [disconnect_present_eq hs]
      rw [is_user_in_channel_eq_of_status_eq (subsRemove_status _ u c) u c]
      cases hik : (derase c ((dget u ({ w with mgr := statusFalse w.mgr u c } : World).mgr.active).getD [])).isEmpty with
      | true =>
          unfold is_user_in_channel
          simp only [dropSession, hik, if_pos]
          rw [dget_derase_self (statusFalse_keysNodup hSt u c) u]
      | false =>
          have heq : (dropSession ({ w with mgr := statusFalse w.mgr u c } : World) u c).mgr.status
              = (statusFalse w.mgr u c).status := by
            simp only [dropSession, hik]
            simp only [Bool.false_eq_true, if_false]
          rw [is_user_in_channel_eq_of_status_eq heq u c]
          exact is_user_in_channel_statusFalse_self w.mgr u c

theorem disconnect_status_resolved {w : World} {u c : Nat} (hT : Tidy w.mgr) :
    dget u (disconnect w u c).mgr.status = none ∨
    (∃ smap, dget u (disconnect w u c).mgr.status = some smap ∧
      (dget c smap = none ∨ dget c smap = some false)) := by
  obtain ⟨_, _, hSt, _, _, _⟩ := hT
  have hsf : ∀ m : Manager, dget u (statusFalse m u c).status = dget u m.status →
      dget u m.status = none ∨ False ∨ True := by intro m _; simp
  -- analyse the status row after `statusFalse`
  have hcore : ∀ m : Manager, dget u (statusFalse m u c).status = none ∨
      (∃ smap, dget u (statusFalse m u c).status = some smap ∧
        (dget c smap = none ∨ dget c smap = some false)) := by
    intro m
    cases hst : dget u m.status with
    | none => exact Or.inl (by simp [statusFalse, hst])
    | some smap =>
        cases hsc : dget c smap with
        | none =>
            refine Or.inr ⟨smap, ?_, Or.inl hsc⟩
            simp [statusFalse, hst, hsc]
        | some b =>
            refine Or.inr ⟨dinsert c false smap, ?_, Or.inr (dget_dinsert_self c false smap)⟩
            simp only [statusFalse, hst, hsc, Option.isSome_some, if_pos]
            exact dget_dinsert_self u _ m.status
  cases hs : hasSession w.mgr u c with
  | false =>
      rw [disconnect_absent_eq hs]
      exact hcore w.mgr
  | true =>
      rw [disconnect_present_eq hs]
      have hrw := subsRemove_status (dropSession ({ w with mgr := statusFalse w.mgr u c } : World) u c) u c
      rw [hrw]
      cases hik : (derase c ((dget u ({ w with mgr := statusFalse w.mgr u c } : World).mgr.active).getD [])).isEmpty with
      | true =>
          refine Or.inl ?_
          simp only [dropSession, hik, if_pos]
          exact dget_derase_self (statusFalse_keysNodup hSt u c) u
      | false =>
          have heq : (dropSession ({ w with mgr := statusFalse w.mgr u c } : World) u c).mgr.status
              = (statusFalse w.mgr u c).status := by
            simp only [dropSession, hik]
            simp only [Bool.false_eq_true, if_false]
          rw [heq]
          exact hcore w.mgr

theorem statusFalse_of_resolved {m : Manager} {u c : Nat}
    (h : dget u m.status = none ∨
      (∃ smap, dget u m.status = some smap ∧ (dget c smap = none ∨ dget c smap = some false))) :
    statusFalse m u c = m := by
  rcases h with h | ⟨smap, hst, hres⟩
  · simp [statusFalse, h]
  · rcases hres with hsc | hsc
    · simp [statusFalse, hst, hsc]
    · simp only [statusFalse, hst, hsc, Option.isSome_some, if_pos]
      rw [dinsert_id hsc, dinsert_id hst]

theorem disconnect_disconnect {w : World} (u c : Nat) (hT : Tidy w.mgr) :
    disconnect (disconnect w u c) u c = disconnect w u c := by
  have habs : hasSession (disconnect w u c).mgr u c = false := hasSession_disconnect_self hT
  rw [disconnect_absent_eq habs]
  rw [statusFalse_of_resolved (disconnect_status_resolved hT)]

theorem statusFalse_tidy {m : Manager} (hT : Tidy m) (u c : Nat) :
    Tidy (statusFalse m u c) := by
  obtain ⟨h1, h2, h3, h4, h5, h6⟩ := hT
  refine ⟨?_, ?_, statusFalse_keysNodup h3 u c, ?_, ?_, ?_⟩
  · rw [statusFalse_active]; exact h1
  · rw [statusFalse_active]; exact h2
  · cases hst : dget u m.status with
    | none => simpa [statusFalse, hst] using h4
    | some smap =>
        cases hsc : (dget c smap).isSome with
        | false => simpa [statusFalse, hst, hsc] using h4
        | true =>
            simp only [statusFalse, hst, hsc, if_pos]
            intro p hp
            rcases mem_dinsert hp with he | he
            · rw [he]
              exact keysNodup_dinsert (h4 (u, smap) (dget_mem hst)) c false
            · exact h4 p he
  · rw [statusFalse_subs]; exact h5
  · rw [statusFalse_subs]; exact h6

theorem dropSession_tidy {w : World} (hT : Tidy w.mgr) (u c : Nat) :
    Tidy (dropSession w u c).mgr := by
  obtain ⟨h1, h2, h3, h4, h5, h6⟩ := hT
  have hl0 : keysNodup ((dget u w.mgr.active).getD []) := by
    cases hact : dget u w.mgr.active with
    | none => simp [keysNodup]
    | some chans => exact h2 _ (dget_mem hact)
  cases hik : (derase c ((dget u w.mgr.active).getD [])).isEmpty with
  | true =>
      simp only [dropSession, hik, if_pos]
      exact ⟨keysNodup_derase h1 u, forall_mem_derase h2,
        keysNodup_derase h3 u, forall_mem_derase h4, h5, h6⟩
  | false =>
      simp only [dropSession, hik]
      simp only [Bool.false_eq_true, if_false]
      refine ⟨keysNodup_dinsert h1 u _, ?_, h3, h4, h5, h6⟩
      refine forall_mem_dinsert h2 ?_
      exact keysNodup_derase hl0 c

theorem subsRemove_tidy {w : World} (hT : Tidy w.mgr) (u c : Nat) :
    Tidy (subsRemove w u c).mgr := by
  obtain ⟨h1, h2, h3, h4, h5, h6⟩ := hT
  cases hg : dget c w.mgr.subs with
  | none => simpa [subsRemove, hg] using ⟨h1, h2, h3, h4, h5, h6⟩
  | some l =>
      by_cases hu : u ∈ l
      · cases hik : (sremL u l).isEmpty with
        | true =>
            simp only [subsRemove, hg, if_pos hu, hik, if_pos]
            exact ⟨h1, h2, h3, h4, keysNodup_derase h5 c, forall_mem_derase h6⟩
        | false =>
            simp only [subsRemove, hg, if_pos hu, hik]
            simp only [Bool.false_eq_true, if_false]
            refine ⟨h1, h2, h3, h4, keysNodup_dinsert h5 c _, ?_⟩
            refine forall_mem_dinsert h6 ?_
            exact nodup_sremL (h6 (c, l) (dget_mem hg)) u
      · simpa [subsRemove, hg, hu] using ⟨h1, h2, h3, h4, h5, h6⟩

theorem disconnect_tidy {w : World} (hT : Tidy w.mgr) (u c : Nat) :
    Tidy (disconnect w u c).mgr := by
  cases hs : hasSession w.mgr u c with
  | false =>
      rw [disconnect_absent_eq hs]
      exact statusFalse_tidy hT u c
  | true =>
      rw [disconnect_present_eq hs]
      exact subsRemove_tidy (dropSession_tidy (statusFalse_tidy hT u c) u c) u c

theorem hasSession_eq_of_dget_eq {m m' : Manager} {u : Nat}
    (h : dget u m.active = dget u m'.active) (c : Nat) :
    hasSession m u c = hasSession m' u c := by
  unfold hasSession
  rw [h]

theorem dropSession_active_dget_self {w : World} {u c : Nat} {chans : List (Nat × WSocket)}
    (hA : keysNodup w.mgr.active) (hact : dget u w.mgr.active = some chans) :
    dget u (dropSession w u c).mgr.active =
      if (derase c chans).isEmpty then none else some (derase c chans) := by
  cases hik : (derase c ((dget u w.mgr.active).getD [])).isEmpty with
  | true =>
      simp only [dropSession, hik, if_pos]
      rw [hact] at hik
      simp only [Option.getD_some] at hik
      rw [hik, if_pos rfl]
      exact dget_derase_self hA u
  | false =>
      simp only [dropSession, hik, Bool.false_eq_true, if_false]
      rw [hact] at hik
      simp only [Option.getD_some] at hik
      rw [hik]
      simp only [Bool.false_eq_true, if_false]
      rw [dget_dinsert_self, hact]
      simp only [Option.getD_some]

theorem disconnect_hasSession_other {w : World} {u c u₁ c₁ : Nat} (hT : Tidy w.mgr)
    (hne : ¬(u₁ = u ∧ c₁ = c)) :
    hasSession (disconnect w u c).mgr u₁ c₁ = hasSession w.mgr u₁ c₁ := by
  obtain ⟨hA, hAc, _, _, _, _⟩ := hT
  cases hs : hasSession w.mgr u c with
  | false =>
      rw [disconnect_absent_eq hs]
      exact hasSession_eq_of_active_eq (statusFalse_active w.mgr u c) u₁ c₁
  | true =>
      rw [disconnect_present_eq hs]
      rw [hasSession_eq_of_active_eq
        (subsRemove_active (dropSession ({ w with mgr := statusFalse w.mgr u c } : World) u c) u c)
        u₁ c₁]
      by_cases hu : u₁ = u
      · subst hu
        have hc : c₁ ≠ c := fun he => hne ⟨rfl, he⟩
        obtain ⟨chans, hact⟩ : ∃ chans, dget u₁ w.mgr.active = some chans := by
          cases hact : dget u₁ w.mgr.active with
          | none => simp [hasSession, hact] at hs
          | some chans => exact ⟨chans, rfl⟩
        have hact' : dget u₁ ({ w with mgr := statusFalse w.mgr u₁ c } : World).mgr.active
            = some chans := by
          rw [show ({ w with mgr := statusFalse w.mgr u₁ c } : World).mgr.active = w.mgr.active
            from statusFalse_active w.mgr u₁ c]
          exact hact
        have hA' : keysNodup ({ w with mgr := statusFalse w.mgr u₁ c } : World).mgr.active := by
          rw [show ({ w with mgr := statusFalse w.mgr u₁ c } : World).mgr.active = w.mgr.active
            from statusFalse_active w.mgr u₁ c]
          exact hA
        unfold hasSession
        rw [dropSession_active_dget_self hA' hact', hact]
        cases hik : (derase c chans).isEmpty with
        | true =>
            rw [if_pos rfl]
            rcases eq_of_derase_nil (List.isEmpty_iff.mp hik) with hnil | ⟨v, hone⟩
            · subst hnil
              simp [dget]
            · subst hone
              have hc' : ¬c = c₁ := fun he => hc he.symm
              simp [dget, hc']
        | false =>
            simp only [Bool.false_eq_true, if_false]
            show (dget c₁ (derase c chans)).isSome = (dget c₁ chans).isSome
            rw [dget_derase_ne hc]
      · rw [@hasSession_eq_of_dget_eq
          (dropSession ({ w with mgr := statusFalse w.mgr u c } : World) u c).mgr
          w.mgr u₁ ?_ c₁]
        rw [dropSession_active_dget_ne hu, statusFalse_active]

theorem statusFalse_status_dget_inv {m : Manager} {u c u₁ c₁ : Nat} {smap : List (Nat × Bool)}
    (h1 : dget u₁ (statusFalse m u c).status = some smap) (h2 : dget c₁ smap = some true) :
    (∃ s₀, dget u₁ m.status = some s₀ ∧ dget c₁ s₀ = some true) ∧ ¬(u₁ = u ∧ c₁ = c) := by
  cases hst : dget u m.status with
  | none =>
      simp only [statusFalse, hst] at h1
      refine ⟨⟨smap, h1, h2⟩, ?_⟩
      rintro ⟨rfl, rfl⟩
      rw [hst] at h1
      exact Option.noConfusion h1
  | some smap₀ =>
      cases hsc : dget c smap₀ with
      | none =>
          simp only [statusFalse, hst, hsc, Option.isSome_none, Bool.false_eq_true, if_false] at h1
          refine ⟨⟨smap, h1, h2⟩, ?_⟩
          rintro ⟨rfl, rfl⟩
          rw [hst] at h1
          cases h1
          rw [hsc] at h2
          exact Option.noConfusion h2
      | some b =>
          have hw : (statusFalse m u c).status = dinsert u (dinsert c false smap₀) m.status := by
            simp [statusFalse, hst, hsc]
          rw [hw] at h1
          by_cases hu : u₁ = u
          · subst hu
            rw [dget_dinsert_self] at h1
            cases h1
            by_cases hc : c₁ = c
            · subst hc
              rw [dget_dinsert_self] at h2
              cases h2
            · rw [dget_dinsert_ne hc] at h2
              exact ⟨⟨smap₀, hst, h2⟩, fun hb => hc hb.2⟩
          · rw [dget_dinsert_ne hu] at h1
            exact ⟨⟨smap, h1, h2⟩, fun hb => hu hb.1⟩

theorem disconnect_status_dget_inv {w : World} {u c u₁ c₁ : Nat} {smap : List (Nat × Bool)}
    (hT : Tidy w.mgr)
    (h1 : dget u₁ (disconnect w u c).mgr.status = some smap)
    (h2 : dget c₁ smap = some true) :
    (∃ s₀, dget u₁ w.mgr.status = some s₀ ∧ dget c₁ s₀ = some true) ∧ ¬(u₁ = u ∧ c₁ = c) := by
  obtain ⟨_, _, hSt, _, _, _⟩ := hT
  cases hs : hasSession w.mgr u c with
  | false =>
      rw [disconnect_absent_eq hs] at h1
      exact statusFalse_status_dget_inv h1 h2
  | true =>
      rw [disconnect_present_eq hs] at h1
      rw [subsRemove_status] at h1
      cases hik : (derase c ((dget u ({ w with mgr := statusFalse w.mgr u c } : World).mgr.active).getD [])).isEmpty with
      | true =>
          simp only [dropSession, hik, if_pos] at h1
          by_cases hu : u₁ = u
          · subst hu
            rw [dget_derase_self (statusFalse_keysNodup hSt u₁ c) u₁] at h1
            exact Option.noConfusion h1
          · rw [dget_derase_ne hu] at h1
            exact statusFalse_status_dget_inv h1 h2
      | false =>
          simp only [dropSession, hik, Bool.false_eq_true, if_false] at h1
          exact statusFalse_status_dget_inv h1 h2

theorem disconnect_statusOk {w : World} {u c : Nat} (hT : Tidy w.mgr)
    (hS : statusSessionOk w.mgr) : statusSessionOk (disconnect w u c).mgr := by
  intro p hp q hq ht
  have hTd := disconnect_tidy hT u c
  obtain ⟨_, _, hSt', hStc', _, _⟩ := hTd
  have h1 : dget p.1 (disconnect w u c).mgr.status = some p.2 := dget_of_mem_nodup hSt' hp
  have h2 : dget q.1 p.2 = some true := by
    have := dget_of_mem_nodup (hStc' p hp) hq
    rw [ht] at this
    exact this
  obtain ⟨⟨s₀, hst₀, hsc₀⟩, hne⟩ := disconnect_status_dget_inv hT h1 h2
  have hold : hasSession w.mgr p.1 q.1 = true :=
    hS (p.1, s₀) (dget_mem hst₀) (q.1, true) (dget_mem hsc₀) rfl
  rw [disconnect_hasSession_other hT hne]
  exact hold

theorem disconnect_subs_dget_inv {w : World} {u c c₁ x : Nat} {l₁ : List Nat}
    (hT : Tidy w.mgr) (hS : subsSessionOk w.mgr)
    (h1 : dget c₁ (disconnect w u c).mgr.subs = some l₁) (hx : x ∈ l₁) :
    (∃ l₀, dget c₁ w.mgr.subs = some l₀ ∧ x ∈ l₀) ∧ ¬(x = u ∧ c₁ = c) := by
  obtain ⟨_, _, _, _, hB, hBc⟩ := hT
  cases hs : hasSession w.mgr u c with
  | false =>
      rw [disconnect_absent_eq hs] at h1
      rw [statusFalse_subs] at h1
      refine ⟨⟨l₁, h1, hx⟩, ?_⟩
      rintro ⟨rfl, rfl⟩
      have := hS (c₁, l₁) (dget_mem h1) x hx
      rw [hs] at this
      exact Bool.noConfusion this
  | true =>
      rw [disconnect_present_eq hs] at h1
      have hsub : (dropSession ({ w with mgr := statusFalse w.mgr u c } : World) u c).mgr.subs
          = w.mgr.subs := by
        rw [dropSession_subs, statusFalse_subs]
      cases hg : dget c w.mgr.subs with
      | none =>
          simp only [subsRemove, hsub, hg] at h1
          refine ⟨⟨l₁, h1, hx⟩, ?_⟩
          rintro ⟨rfl, rfl⟩
          rw [hg] at h1
          exact Option.noConfusion h1
      | some l =>
          by_cases hu : u ∈ l
          · cases hik : (sremL u l).isEmpty with
            | true =>
                simp only [subsRemove, hsub, hg, if_pos hu, hik, if_pos] at h1
                by_cases hc : c₁ = c
                · subst hc
                  rw [dget_derase_self hB c₁] at h1
                  exact Option.noConfusion h1
                · rw [dget_derase_ne hc] at h1
                  exact ⟨⟨l₁, h1, hx⟩, fun hb => hc hb.2⟩
            | false =>
                simp only [subsRemove, hsub, hg, if_pos hu, hik, Bool.false_eq_true,
                  if_false] at h1
                by_cases hc : c₁ = c
                · subst hc
                  rw [dget_dinsert_self] at h1
                  cases h1
                  have hnl : l.Nodup := hBc (c₁, l) (dget_mem hg)
                  exact ⟨⟨l, hg, mem_of_mem_sremL hx⟩,
                    fun hb => (ne_of_mem_sremL hnl hx) hb.1⟩
                · rw [dget_dinsert_ne hc] at h1
                  exact ⟨⟨l₁, h1, hx⟩, fun hb => hc hb.2⟩
          · simp only [subsRemove, hsub, hg, if_neg hu] at h1
            refine ⟨⟨l₁, h1, hx⟩, ?_⟩
            rintro ⟨rfl, rfl⟩
            rw [hg] at h1
            cases h1
            exact hu hx

theorem disconnect_subsOk {w : World} {u c : Nat} (hT : Tidy w.mgr)
    (hS : subsSessionOk w.mgr) : subsSessionOk (disconnect w u c).mgr := by
  intro p hp x hx
  have hTd := disconnect_tidy hT u c
  obtain ⟨_, _, _, _, hB', _⟩ := hTd
  have h1 : dget p.1 (disconnect w u c).mgr.subs = some p.2 := dget_of_mem_nodup hB' hp
  obtain ⟨⟨l₀, hg₀, hx₀⟩, hne⟩ := disconnect_subs_dget_inv hT hS h1 hx
  have hold : hasSession w.mgr x p.1 = true := hS (p.1, l₀) (dget_mem hg₀) x hx₀
  rw [disconnect_hasSession_other hT hne]
  exact hold

theorem disconnect_subsOf_sub {w : World} {u c c₁ x : Nat} (hT : Tidy w.mgr)
    (hx : x ∈ subsOf (disconnect w u c).mgr c₁) : x ∈ subsOf w.mgr c₁ := by
  obtain ⟨_, _, _, _, hB, _⟩ := hT
  unfold subsOf at hx ⊢
  cases hs : hasSession w.mgr u c with
  | false =>
      rw [disconnect_absent_eq hs] at hx
      rw [statusFalse_subs] at hx
      exact hx
  | true =>
      rw [disconnect_present_eq hs] at hx
      have hsub : (dropSession ({ w with mgr := statusFalse w.mgr u c } : World) u c).mgr.subs
          = w.mgr.subs := by
        rw [dropSession_subs, statusFalse_subs]
      cases hg : dget c w.mgr.subs with
      | none => simpa [subsRemove, hsub, hg] using hx
      | some l =>
          by_cases hu : u ∈ l
          · cases hik : (sremL u l).isEmpty with
            | true =>
                simp only [subsRemove, hsub, hg, if_pos hu, hik, if_pos] at hx
                by_cases hc : c₁ = c
                · subst hc
                  rw [dget_derase_self hB c₁] at hx
                  simp at hx
                · rw [dget_derase_ne hc] at hx
                  exact hx
            | false =>
                simp only [subsRemove, hsub, hg, if_pos hu, hik, Bool.false_eq_true,
                  if_false] at hx
                by_cases hc : c₁ = c
                · subst hc
                  rw [dget_dinsert_self] at hx
                  simp only [Option.getD_some] at hx
                  rw [hg]
                  simpa using mem_of_mem_sremL hx
                · rw [dget_dinsert_ne hc] at hx
                  exact hx
          · simpa [subsRemove, hsub, hg, hu] using hx

theorem disconnect_removes_sub {w : World} {u c : Nat} (hT : Tidy w.mgr)
    (hs : hasSession w.mgr u c = true) : u ∉ subsOf (disconnect w u c).mgr c := by
  obtain ⟨_, _, _, _, hB, hBc⟩ := hT
  unfold subsOf
  rw [disconnect_present_eq hs]
  have hsub : (dropSession ({ w with mgr := statusFalse w.mgr u c } : World) u c).mgr.subs
      = w.mgr.subs := by
    rw [dropSession_subs, statusFalse_subs]
  cases hg : dget c w.mgr.subs with
  | none =>
      simp only [subsRemove, hsub, hg]
      simp
  | some l =>
      by_cases hu : u ∈ l
      · cases hik : (sremL u l).isEmpty with
        | true =>
            simp only [subsRemove, hsub, hg, if_pos hu, hik, if_pos]
            rw [dget_derase_self hB c]
            simp
        | false =>
            simp only [subsRemove, hsub, hg, if_pos hu, hik, Bool.false_eq_true, if_false]
            rw [dget_dinsert_self]
            simp only [Option.getD_some]
            exact not_mem_sremL_self (hBc (c, l) (dget_mem hg)) u
      · simp only [subsRemove, hsub, hg, if_neg hu]
        simpa using hu

theorem disconnect_log_shape (w : World) (u c : Nat) :
    ∃ pre, (disconnect w u c).log = pre ++ w.log ∧
      ∀ e ∈ pre, e = Eff.unsubscribe c ∨ e = Eff.sremOnline u := by
  cases hs : hasSession w.mgr u c with
  | false =>
      refine ⟨[], ?_, by simp⟩
      rw [disconnect_absent_eq hs]
      rfl
  | true =>
      rw [disconnect_present_eq hs]
      have hlog₂ : (dropSession ({ w with mgr := statusFalse w.mgr u c } : World) u c).log = w.log ∨
          (dropSession ({ w with mgr := statusFalse w.mgr u c } : World) u c).log
            = Eff.sremOnline u :: w.log := by
        cases hik : (derase c ((dget u ({ w with mgr := statusFalse w.mgr u c } : World).mgr.active).getD [])).isEmpty with
        | true =>
            refine Or.inr ?_
            simp [dropSession, hik]
        | false =>
            refine Or.inl ?_
            simp [dropSession, hik]
      set w₂ := dropSession ({ w with mgr := statusFalse w.mgr u c } : World) u c with hw₂
      have hlog₃ : (subsRemove w₂ u c).log = w₂.log ∨
          (subsRemove w₂ u c).log = Eff.unsubscribe c :: w₂.log := by
        cases hg : dget c w₂.mgr.subs with
        | none => exact Or.inl (by simp [subsRemove, hg])
        | some l =>
            by_cases hu : u ∈ l
            · cases hik : (sremL u l).isEmpty with
              | true => exact Or.inr (by simp [subsRemove, hg, hu, hik])
              | false => exact Or.inl (by simp [subsRemove, hg, hu, hik])
            · exact Or.inl (by simp [subsRemove, hg, hu])
      rcases hlog₂ with h2 | h2 <;> rcases hlog₃ with h3 | h3
      · exact ⟨[], by rw [h3, h2]; rfl, by simp⟩
      · exact ⟨[Eff.unsubscribe c], by rw [h3, h2]; rfl, by simp⟩
      · exact ⟨[Eff.sremOnline u], by rw [h3, h2]; rfl, by simp⟩
      · exact ⟨[Eff.unsubscribe c, Eff.sremOnline u], by rw [h3, h2]; rfl, by simp⟩

/-! ### `send_personal_message` and `bstep` lemmas -/

theorem send_eq_of_absent {w : World} {u c : Nat} (e : OutEvent)
    (h : hasSession w.mgr u c = false) :
    send_personal_message w e u c = (w, false) := by
  cases hact : dget u w.mgr.active with
  | none => simp [send_personal_message, hact]
  | some chans =>
      cases hch : dget c chans with
      | none => simp [send_personal_message, hact, hch]
      | some ws => simp [hasSession, hact, hch] at h

theorem send_eq_present {w : World} {u c : Nat} {chans : List (Nat × WSocket)} {ws : WSocket}
    (e : OutEvent) (hact : dget u w.mgr.active = some chans) (hch : dget c chans = some ws) :
    send_personal_message w e u c = (disconnect w u c, false) := by
  simp [send_personal_message, hact, hch, client_state_DISCONNECTED_truthy]

theorem send_tidy {w : World} {u c : Nat} (e : OutEvent) (hT : Tidy w.mgr) :
    Tidy (send_personal_message w e u c).1.mgr := by
  cases hact : dget u w.mgr.active with
  | none => rw [send_eq_of_absent e (by simp [hasSession, hact])]; exact hT
  | some chans =>
      cases hch : dget c chans with
      | none =>
          rw [send_eq_of_absent e (by simp [hasSession, hact, hch])]
          exact hT
      | some ws =>
          rw [send_eq_present e hact hch]
          exact disconnect_tidy hT u c

theorem send_statusOk {w : World} {u c : Nat} (e : OutEvent) (hT : Tidy w.mgr)
    (hS : statusSessionOk w.mgr) : statusSessionOk (send_personal_message w e u c).1.mgr := by
  cases hact : dget u w.mgr.active with
  | none => rw [send_eq_of_absent e (by simp [hasSession, hact])]; exact hS
  | some chans =>
      cases hch : dget c chans with
      | none =>
          rw [send_eq_of_absent e (by simp [hasSession, hact, hch])]
          exact hS
      | some ws =>
          rw [send_eq_present e hact hch]
          exact disconnect_statusOk hT hS

theorem send_subsOk {w : World} {u c : Nat} (e : OutEvent) (hT : Tidy w.mgr)
    (hS : subsSessionOk w.mgr) : subsSessionOk (send_personal_message w e u c).1.mgr := by
  cases hact : dget u w.mgr.active with
  | none => rw [send_eq_of_absent e (by simp [hasSession, hact])]; exact hS
  | some chans =>
      cases hch : dget c chans with
      | none =>
          rw [send_eq_of_absent e (by simp [hasSession, hact, hch])]
          exact hS
      | some ws =>
          rw [send_eq_present e hact hch]
          exact disconnect_subsOk hT hS

theorem bstep_tidy {w : World} {u c : Nat} (e : OutEvent) (hT : Tidy w.mgr) :
    Tidy (bstep e c w u).mgr := by
  unfold bstep
  dsimp only
  split
  · exact disconnect_tidy (send_tidy e hT) u c
  · exact send_tidy e hT

theorem bstep_statusOk {w : World} {u c : Nat} (e : OutEvent) (hT : Tidy w.mgr)
    (hS : statusSessionOk w.mgr) : statusSessionOk (bstep e c w u).mgr := by
  unfold bstep
  dsimp only
  split
  · exact disconnect_statusOk (send_tidy e hT) (send_statusOk e hT hS)
  · exact send_statusOk e hT hS

theorem bstep_subsOk {w : World} {u c : Nat} (e : OutEvent) (hT : Tidy w.mgr)
    (hS : subsSessionOk w.mgr) : subsSessionOk (bstep e c w u).mgr := by
  unfold bstep
  dsimp only
  split
  · exact disconnect_subsOk (send_tidy e hT) (send_subsOk e hT hS)
  · exact send_subsOk e hT hS

theorem send_log_shape (e : OutEvent) (w : World) (u c : Nat) :
    ∃ pre, (send_personal_message w e u c).1.log = pre ++ w.log ∧
      ∀ eff ∈ pre, eff = Eff.wsDeliver u c e true ∨ eff = Eff.wsDeliver u c e false ∨
        eff = Eff.unsubscribe c ∨ eff = Eff.sremOnline u := by
  cases hact : dget u w.mgr.active with
  | none =>
      rw [send_eq_of_absent e (by simp [hasSession, hact])]
      exact ⟨[], rfl, by simp⟩
  | some chans =>
      cases hch : dget c chans with
      | none =>
          rw [send_eq_of_absent e (by simp [hasSession, hact, hch])]
          exact ⟨[], rfl, by simp⟩
      | some ws =>
          rw [send_eq_present e hact hch]
          rcases disconnect_log_shape w u c with ⟨pre, hpre, hmem⟩
          refine ⟨pre, hpre, fun eff he => ?_⟩
          rcases hmem eff he with h | h
          · exact Or.inr (Or.inr (Or.inl h))
          · exact Or.inr (Or.inr (Or.inr h))

theorem bstep_log_shape (e : OutEvent) (c : Nat) (w : World) (u : Nat) :
    ∃ pre, (bstep e c w u).log = pre ++ w.log ∧
      ∀ eff ∈ pre, eff = Eff.wsDeliver u c e true ∨ eff = Eff.wsDeliver u c e false ∨
        eff = Eff.unsubscribe c ∨ eff = Eff.sremOnline u := by
  rcases send_log_shape e w u c with ⟨pre1, h1, hp1⟩
  unfold bstep
  dsimp only
  split
  · rcases disconnect_log_shape (send_personal_message w e u c).1 u c with ⟨pre2, h2, hp2⟩
    refine ⟨pre2 ++ pre1, ?_, fun eff he => ?_⟩
    · rw [h2, h1, List.append_assoc]
    · rcases List.mem_append.mp he with h | h
      · rcases hp2 eff h with h' | h'
        · exact Or.inr (Or.inr (Or.inl h'))
        · exact Or.inr (Or.inr (Or.inr h'))
      · exact hp1 eff h
  · exact ⟨pre1, h1, hp1⟩

theorem send_active_dget_ne {u' u : Nat} (hne : u' ≠ u) (e : OutEvent) (w : World) (c : Nat) :
    dget u' (send_personal_message w e u c).1.mgr.active = dget u' w.mgr.active := by
  cases hact : dget u w.mgr.active with
  | none => rw [send_eq_of_absent e (by simp [hasSession, hact])]
  | some chans =>
      cases hch : dget c chans with
      | none => rw [send_eq_of_absent e (by simp [hasSession, hact, hch])]
      | some ws =>
          rw [send_eq_present e hact hch]
          exact disconnect_active_dget_ne hne w c

theorem bstep_active_dget_ne {u' u : Nat} (hne : u' ≠ u) (e : OutEvent) (c : Nat) (w : World) :
    dget u' (bstep e c w u).mgr.active = dget u' w.mgr.active := by
  unfold bstep
  dsimp only
  split
  · rw [disconnect_active_dget_ne hne]
    exact send_active_dget_ne hne e w c
  · exact send_active_dget_ne hne e w c

theorem send_subsOf_sub {w : World} {u c c₁ x : Nat} (e : OutEvent) (hT : Tidy w.mgr)
    (hx : x ∈ subsOf (send_personal_message w e u c).1.mgr c₁) : x ∈ subsOf w.mgr c₁ := by
  cases hact : dget u w.mgr.active with
  | none => rwa [send_eq_of_absent e (by simp [hasSession, hact])] at hx
  | some chans =>
      cases hch : dget c chans with
      | none => rwa [send_eq_of_absent e (by simp [hasSession, hact, hch])] at hx
      | some ws =>
          rw [send_eq_present e hact hch] at hx
          exact disconnect_subsOf_sub hT hx

theorem bstep_subsOf_sub {w : World} {u c c₁ x : Nat} (e : OutEvent) (hT : Tidy w.mgr)
    (hx : x ∈ subsOf (bstep e c w u).mgr c₁) : x ∈ subsOf w.mgr c₁ := by
  revert hx
  unfold bstep
  dsimp only
  split
  · intro hx
    exact send_subsOf_sub e hT (disconnect_subsOf_sub (send_tidy e hT) hx)
  · intro hx
    exact send_subsOf_sub e hT hx

theorem broadcastAux_not_mem {c₁ x : Nat} (e : OutEvent) (c : Nat) :
    ∀ (todo : List Nat) (w : World), Tidy w.mgr → x ∉ subsOf w.mgr c₁ →
      x ∉ subsOf (broadcastAux e c w todo).mgr c₁ := by
  intro todo
  induction todo with
  | nil => intro w _ hx; exact hx
  | cons u rest ih =>
      intro w hT hx
      exact ih (bstep e c w u) (bstep_tidy e hT) (fun hmem => hx (bstep_subsOf_sub e hT hmem))

theorem broadcastAux_log_ext (e : OutEvent) (c : Nat) :
    ∀ (todo : List Nat) (w : World),
      ∃ pre, (broadcastAux e c w todo).log = pre ++ w.log ∧
        ∀ eff ∈ pre, ∀ u₁ c₁ e₁ ok, eff = Eff.wsDeliver u₁ c₁ e₁ ok →
          u₁ ∈ todo ∧ c₁ = c ∧ e₁ = e := by
  intro todo
  induction todo with
  | nil => intro w; exact ⟨[], rfl, by simp⟩
  | cons u rest ih =>
      intro w
      rcases bstep_log_shape e c w u with ⟨pre1, h1, hp1⟩
      rcases ih (bstep e c w u) with ⟨pre2, h2, hp2⟩
      refine ⟨pre2 ++ pre1, ?_, fun eff he u₁ c₁ e₁ ok heq => ?_⟩
      · rw [show broadcastAux e c w (u :: rest) = broadcastAux e c (bstep e c w u) rest from rfl,
          h2, h1, List.append_assoc]
      · rcases List.mem_append.mp he with h | h
        · obtain ⟨hu, hc, he'⟩ := hp2 eff h u₁ c₁ e₁ ok heq
          exact ⟨List.mem_cons_of_mem _ hu, hc, he'⟩
        · subst heq
          rcases hp1 _ h with h' | h' | h' | h' <;> cases h'
          · exact ⟨by simp, rfl, rfl⟩
          · exact ⟨by simp, rfl, rfl⟩

theorem broadcastAux_log_mem (e : OutEvent) (c : Nat) {x : Eff} :
    ∀ (todo : List Nat) (w : World), x ∈ w.log → x ∈ (broadcastAux e c w todo).log := by
  intro todo w hx
  rcases broadcastAux_log_ext e c todo w with ⟨pre, hpre, _⟩
  rw [hpre]
  exact List.mem_append_right pre hx

theorem disconnect_sub_mem_other {w : World} {u c c₁ x : Nat} (hT : Tidy w.mgr)
    (hne : x ≠ u) (hx : x ∈ subsOf w.mgr c₁) : x ∈ subsOf (disconnect w u c).mgr c₁ := by
  obtain ⟨_, _, _, _, hB, hBc⟩ := hT
  unfold subsOf at hx ⊢
  cases hs : hasSession w.mgr u c with
  | false =>
      rw [disconnect_absent_eq hs, statusFalse_subs]
      exact hx
  | true =>
      rw [disconnect_present_eq hs]
      have hsub : (dropSession ({ w with mgr := statusFalse w.mgr u c } : World) u c).mgr.subs
          = w.mgr.subs := by
        rw [dropSession_subs, statusFalse_subs]
      cases hg : dget c w.mgr.subs with
      | none => simpa [subsRemove, hsub, hg] using hx
      | some l =>
          by_cases hu : u ∈ l
          · by_cases hc : c₁ = c
            · subst hc
              rw [hg] at hx
              simp only [Option.getD_some] at hx
              have hx' : x ∈ sremL u l := mem_sremL_of_ne hx hne
              have hik : (sremL u l).isEmpty = false := by
                cases hik : (sremL u l).isEmpty with
                | false => rfl
                | true =>
                    rw [List.isEmpty_iff.mp hik] at hx'
                    simp at hx'
              simp only [subsRemove, hsub, hg, if_pos hu, hik, Bool.false_eq_true, if_false]
              rw [dget_dinsert_self]
              simpa using hx'
            · cases hik : (sremL u l).isEmpty with
              | true =>
                  simp only [subsRemove, hsub, hg, if_pos hu, hik, if_pos]
                  rw [dget_derase_ne hc]
                  exact hx
              | false =>
                  simp only [subsRemove, hsub, hg, if_pos hu, hik, Bool.false_eq_true, if_false]
                  rw [dget_dinsert_ne hc]
                  exact hx
          · simp only [subsRemove, hsub, hg, if_neg hu]
            exact hx

theorem send_sub_mem_other {w : World} {u c c₁ x : Nat} (e : OutEvent) (hT : Tidy w.mgr)
    (hne : x ≠ u) (hx : x ∈ subsOf w.mgr c₁) :
    x ∈ subsOf (send_personal_message w e u c).1.mgr c₁ := by
  cases hact : dget u w.mgr.active with
  | none => rwa [send_eq_of_absent e (by simp [hasSession, hact])]
  | some chans =>
      cases hch : dget c chans with
      | none => rwa [send_eq_of_absent e (by simp [hasSession, hact, hch])]
      | some ws =>
          rw [send_eq_present e hact hch]
          exact disconnect_sub_mem_other hT hne hx

theorem bstep_sub_mem_other {w : World} {u c c₁ x : Nat} (e : OutEvent) (hT : Tidy w.mgr)
    (hne : x ≠ u) (hx : x ∈ subsOf w.mgr c₁) : x ∈ subsOf (bstep e c w u).mgr c₁ := by
  unfold bstep
  dsimp only
  split
  · exact disconnect_sub_mem_other (send_tidy e hT) hne (send_sub_mem_other e hT hne hx)
  · exact send_sub_mem_other e hT hne hx

theorem bstep_eq_present {w : World} {u c : Nat} {chans : List (Nat × WSocket)} {ws : WSocket}
    (e : OutEvent) (hT : Tidy w.mgr) (hact : dget u w.mgr.active = some chans)
    (hch : dget c chans = some ws) :
    bstep e c w u = disconnect w u c := by
  unfold bstep
  dsimp only
  rw [send_eq_present e hact hch]
  have hns : u ∉ subsOf (disconnect w u c).mgr c :=
    disconnect_removes_sub hT (by simp [hasSession, hact, hch])
  simp [hns]

/-! ### Generic preservation through `send`, `bstep`, `broadcastAux`, and `connect` -/

theorem send_preserves (P : World → Prop)
    (hlog : ∀ w l, P w → P { w with log := l })
    (hdis : ∀ w u c, P w → P (disconnect w u c)) :
    ∀ (w : World) (e : OutEvent) (u c : Nat), P w → P (send_personal_message w e u c).1 := by
  intro w e u c hP
  cases hact : dget u w.mgr.active with
  | none => rw [send_eq_of_absent e (by simp [hasSession, hact])]; exact hP
  | some chans =>
      cases hch : dget c chans with
      | none => rw [send_eq_of_absent e (by simp [hasSession, hact, hch])]; exact hP
      | some ws =>
          rw [send_eq_present e hact hch]
          exact hdis w u c hP

theorem bstep_preserves (P : World → Prop)
    (hlog : ∀ w l, P w → P { w with log := l })
    (hdis : ∀ w u c, P w → P (disconnect w u c)) (e : OutEvent) (c : Nat) :
    ∀ (w : World) (u : Nat), P w → P (bstep e c w u) := by
  intro w u hP
  unfold bstep
  dsimp only
  split
  · exact hdis _ u c (send_preserves P hlog hdis w e u c hP)
  · exact send_preserves P hlog hdis w e u c hP

theorem broadcastAux_preserves (P : World → Prop)
    (hstep : ∀ (w : World) (u : Nat), P w → P (bstep e c w u)) :
    ∀ (todo : List Nat) (w : World), P w → P (broadcastAux e c w todo) := by
  intro todo
  induction todo with
  | nil => intro w hP; exact hP
  | cons u rest ih => intro w hP; exact ih (bstep e c w u) (hstep w u hP)

theorem connect_mgr (w : World) (ws : WSocket) (u c : Nat) :
    (connect w ws u c).mgr =
      if ws.acceptOk then
        ⟨dinsert u (dinsert c ws ((dget u w.mgr.active).getD [])) w.mgr.active,
         dinsert u (dinsert c true ((dget u w.mgr.status).getD [])) w.mgr.status,
         dinsert c (saddL u ((dget c w.mgr.subs).getD [])) w.mgr.subs⟩
      else w.mgr := by
  cases hacc : ws.acceptOk with
  | false => simp [connect, hacc]
  | true =>
      cases hk : ws.sendOk with
      | false => simp [connect, hacc, hk]
      | true =>
          simp only [connect, hacc, hk, Bool.not_true, Bool.false_eq_true, if_false, if_pos]
          split <;> rfl

theorem connect_tidy {w : World} (hT : Tidy w.mgr) (ws : WSocket) (u c : Nat) :
    Tidy (connect w ws u c).mgr := by
  rw [connect_mgr]
  cases hacc : ws.acceptOk with
  | false => simpa using hT
  | true =>
      simp only [if_pos]
      obtain ⟨h1, h2, h3, h4, h5, h6⟩ := hT
      have hch : keysNodup ((dget u w.mgr.active).getD []) := by
        cases hact : dget u w.mgr.active with
        | none => simp [keysNodup]
        | some chans => exact h2 _ (dget_mem hact)
      have hsm : keysNodup ((dget u w.mgr.status).getD []) := by
        cases hst : dget u w.mgr.status with
        | none => simp [keysNodup]
        | some smap => exact h4 _ (dget_mem hst)
      have hsl : ((dget c w.mgr.subs).getD []).Nodup := by
        cases hg : dget c w.mgr.subs with
        | none => simp
        | some l => exact h6 _ (dget_mem hg)
      refine ⟨keysNodup_dinsert h1 u _, ?_, keysNodup_dinsert h3 u _, ?_,
        keysNodup_dinsert h5 c _, ?_⟩
      · exact forall_mem_dinsert h2 (keysNodup_dinsert hch c ws)
      · exact forall_mem_dinsert h4 (keysNodup_dinsert hsm c true)
      · exact forall_mem_dinsert h6 (nodup_saddL hsl u)

theorem isSome_eq_of_keys_eq {α β : Type u} {l : List (Nat × α)} {l' : List (Nat × β)}
    (h : l.map Prod.fst = l'.map Prod.fst) (k : Nat) :
    (dget k l).isSome = (dget k l').isSome := by
  by_cases hk : k ∈ l.map Prod.fst
  · rw [(dget_isSome_iff_mem_keys k l).mpr hk,
      (dget_isSome_iff_mem_keys k l').mpr (h ▸ hk)]
  · have h1 : dget k l = none := dget_none_of_not_mem_keys hk
    have h2 : dget k l' = none := dget_none_of_not_mem_keys (fun hc => hk (h ▸ hc))
    rw [h1, h2]
    rfl

theorem statusFalse_status_keys (m : Manager) (u c : Nat) :
    (statusFalse m u c).status.map Prod.fst = m.status.map Prod.fst := by
  cases hst : dget u m.status with
  | none => simp [statusFalse, hst]
  | some smap =>
      cases hsc : (dget c smap).isSome with
      | false => simp [statusFalse, hst, hsc]
      | true =>
          simp only [statusFalse, hst, hsc, if_pos]
          exact keys_dinsert_of_dget hst _

theorem connect_keyEq {w : World} (hK : KeyEq w.mgr) (ws : WSocket) (u c : Nat) :
    KeyEq (connect w ws u c).mgr := by
  rw [connect_mgr]
  cases hacc : ws.acceptOk with
  | false => simpa using hK
  | true =>
      simp only [if_pos]
      obtain ⟨h1, h2⟩ := hK
      constructor
      · intro p hp
        rcases mem_dinsert hp with he | he
        · rw [he]
          simp only []
          rw [dget_dinsert_self]
          rfl
        · by_cases hpu : p.1 = u
          · rw [hpu]
            simp only []
            rw [dget_dinsert_self]
            rfl
          · simp only []
            rw [dget_dinsert_ne hpu]
            exact h1 p he
      · intro p hp
        rcases mem_dinsert hp with he | he
        · rw [he]
          simp only []
          rw [dget_dinsert_self]
          rfl
        · by_cases hpu : p.1 = u
          · rw [hpu]
            simp only []
            rw [dget_dinsert_self]
            rfl
          · simp only []
            rw [dget_dinsert_ne hpu]
            exact h2 p he

theorem disconnect_keyEq {w : World} {u c : Nat} (hT : Tidy w.mgr) (hK : KeyEq w.mgr) :
    KeyEq (disconnect w u c).mgr := by
  obtain ⟨hA, _, hSt, _, _, _⟩ := hT
  obtain ⟨h1, h2⟩ := hK
  have hkeys := statusFalse_status_keys w.mgr u c
  cases hs : hasSession w.mgr u c with
  | false =>
      rw [disconnect_absent_eq hs]
      constructor
      · intro p hp
        rw [show ({ w with mgr := statusFalse w.mgr u c } : World).mgr.status
            = (statusFalse w.mgr u c).status from rfl]
        rw [isSome_eq_of_keys_eq hkeys]
        exact h1 p (by rwa [show ({ w with mgr := statusFalse w.mgr u c } : World).mgr.active
          = w.mgr.active from statusFalse_active w.mgr u c] at hp)
      · intro p hp
        rw [show ({ w with mgr := statusFalse w.mgr u c } : World).mgr.active
          = w.mgr.active from statusFalse_active w.mgr u c]
        have hpk : p.1 ∈ w.mgr.status.map Prod.fst := by
          rw [← hkeys]
          exact List.mem_map.mpr ⟨p, hp, rfl⟩
        obtain ⟨smap, hsm⟩ := Option.isSome_iff_exists.mp
          ((dget_isSome_iff_mem_keys p.1 w.mgr.status).mpr hpk)
        exact h2 (p.1, smap) (dget_mem hsm)
  | true =>
      rw [disconnect_present_eq hs]
      obtain ⟨chans, hact⟩ : ∃ chans, dget u w.mgr.active = some chans := by
        cases hact : dget u w.mgr.active with
        | none => simp [hasSession, hact] at hs
        | some chans => exact ⟨chans, rfl⟩
      have hstf : keysNodup (statusFalse w.mgr u c).status := statusFalse_keysNodup hSt u c
      have hrwa : (subsRemove (dropSession ({ w with mgr := statusFalse w.mgr u c } : World) u c) u c).mgr.active
          = (dropSession ({ w with mgr := statusFalse w.mgr u c } : World) u c).mgr.active :=
        subsRemove_active _ u c
      have hrws : (subsRemove (dropSession ({ w with mgr := statusFalse w.mgr u c } : World) u c) u c).mgr.status
          = (dropSession ({ w with mgr := statusFalse w.mgr u c } : World) u c).mgr.status :=
        subsRemove_status _ u c
      have hact' : dget u ({ w with mgr := statusFalse w.mgr u c } : World).mgr.active = some chans := by
        rw [show ({ w with mgr := statusFalse w.mgr u c } : World).mgr.active
          = w.mgr.active from statusFalse_active w.mgr u c]
        exact hact
      cases hik : (derase c ((dget u ({ w with mgr := statusFalse w.mgr u c } : World).mgr.active).getD [])).isEmpty with
      | true =>
          constructor
          · intro p hp
            rw [hrwa] at hp
            simp only [dropSession, hik, if_pos] at hp
            rw [show ({ w with mgr := statusFalse w.mgr u c } : World).mgr.active
              = w.mgr.active from statusFalse_active w.mgr u c] at hp
            obtain ⟨hpm, hpne⟩ := mem_derase_nodup hA hp
            rw [hrws]
            simp only [dropSession, hik, if_pos]
            rw [dget_derase_ne hpne]
            rw [isSome_eq_of_keys_eq hkeys]
            exact h1 p hpm
          · intro p hp
            rw [hrws] at hp
            simp only [dropSession, hik, if_pos] at hp
            obtain ⟨hpm, hpne⟩ := mem_derase_nodup hstf hp
            rw [hrwa]
            simp only [dropSession, hik, if_pos]
            rw [show ({ w with mgr := statusFalse w.mgr u c } : World).mgr.active
              = w.mgr.active from statusFalse_active w.mgr u c]
            rw [dget_derase_ne hpne]
            have hpk : p.1 ∈ w.mgr.status.map Prod.fst := by
              rw [← hkeys]
              exact List.mem_map.mpr ⟨p, hpm, rfl⟩
            obtain ⟨smap, hsm⟩ := Option.isSome_iff_exists.mp
              ((dget_isSome_iff_mem_keys p.1 w.mgr.status).mpr hpk)
            exact h2 (p.1, smap) (dget_mem hsm)
      | false =>
          constructor
          · intro p hp
            rw [hrwa] at hp
            simp only [dropSession, hik, Bool.false_eq_true, if_false] at hp
            rw [hrws]
            simp only [dropSession, hik, Bool.false_eq_true, if_false]
            rw [isSome_eq_of_keys_eq hkeys]
            rcases mem_dinsert hp with he | he
            · rw [he]
              exact h1 (u, chans) (dget_mem hact)
            · rw [show ({ w with mgr := statusFalse w.mgr u c } : World).mgr.active
                = w.mgr.active from statusFalse_active w.mgr u c] at he
              exact h1 p he
          · intro p hp
            rw [hrws] at hp
            simp only [dropSession, hik, Bool.false_eq_true, if_false] at hp
            rw [hrwa]
            simp only [dropSession, hik, Bool.false_eq_true, if_false]
            have hpk : p.1 ∈ w.mgr.status.map Prod.fst := by
              rw [← hkeys]
              exact List.mem_map.mpr ⟨p, hp, rfl⟩
            obtain ⟨smap, hsm⟩ := Option.isSome_iff_exists.mp
              ((dget_isSome_iff_mem_keys p.1 w.mgr.status).mpr hpk)
            have hold := h2 (p.1, smap) (dget_mem hsm)
            by_cases hpu : p.1 = u
            · rw [hpu]
              rw [dget_dinsert_self]
              rfl
            · rw [dget_dinsert_ne hpu]
              rw [show ({ w with mgr := statusFalse w.mgr u c } : World).mgr.active
                = w.mgr.active from statusFalse_active w.mgr u c]
              exact hold

theorem broadcast_preserves (P : World → Prop)
    (hlog : ∀ w l, P w → P { w with log := l })
    (hdis : ∀ w u c, P w → P (disconnect w u c)) (w : World) (c : Nat) (e : OutEvent)
    (hP : P w) : P (broadcast_to_channel w c e) := by
  unfold broadcast_to_channel
  cases hg : dget c w.mgr.subs with
  | none => exact hP
  | some snap =>
      exact broadcastAux_preserves P (bstep_preserves P hlog hdis e c) snap w hP

theorem runOps_tidy_keyEq :
    ∀ (ops : List Op) (w : World), Tidy w.mgr ∧ KeyEq w.mgr →
      Tidy (runOps w ops).mgr ∧ KeyEq (runOps w ops).mgr := by
  intro ops
  induction ops with
  | nil => intro w h; exact h
  | cons op t ih =>
      intro w h
      refine ih (stepOp w op) ?_
      cases op with
      | connect ws u c => exact ⟨connect_tidy h.1 ws u c, connect_keyEq h.2 ws u c⟩
      | disconnect u c => exact ⟨disconnect_tidy h.1 u c, disconnect_keyEq h.1 h.2⟩
      | send e u c =>
          exact send_preserves (fun w' => Tidy w'.mgr ∧ KeyEq w'.mgr)
            (fun _ _ hh => hh)
            (fun w' u' c' hh => ⟨disconnect_tidy hh.1 u' c', disconnect_keyEq hh.1 hh.2⟩)
            w e u c h
      | broadcast c e =>
          exact broadcast_preserves (fun w' => Tidy w'.mgr ∧ KeyEq w'.mgr)
            (fun _ _ hh => hh)
            (fun w' u' c' hh => ⟨disconnect_tidy hh.1 u' c', disconnect_keyEq hh.1 hh.2⟩)
            w c e h

theorem saddL_ne_nil (u : Nat) (l : List Nat) : saddL u l ≠ [] := by
  unfold saddL
  split
  · intro h
    subst h
    simp_all
  · simp

theorem connect_eq_noaccept {w : World} {ws : WSocket} (hacc : ws.acceptOk = false)
    (u c : Nat) : connect w ws u c = w := by
  simp [connect, hacc]

theorem connect_brokerSubs {w : World} {ws : WSocket} (hacc : ws.acceptOk = true)
    (hk : ws.sendOk = true) (u c : Nat) :
    (connect w ws u c).brokerSubs =
      if (saddL u ((dget c w.mgr.subs).getD [])).length == 1
      then saddL c w.brokerSubs else w.brokerSubs := by
  simp only [connect, hacc, hk, Bool.not_true, Bool.false_eq_true, if_false, subsOf,
    dget_dinsert_self, Option.getD_some]
  split <;> rfl

theorem connect_online {w : World} {ws : WSocket} (hacc : ws.acceptOk = true)
    (hk : ws.sendOk = true) (u c : Nat) :
    (connect w ws u c).online = saddL u w.online := by
  simp only [connect, hacc, hk, Bool.not_true, Bool.false_eq_true, if_false]
  split <;> rfl

theorem connect_subs_eq {w : World} {ws : WSocket} (hacc : ws.acceptOk = true) (u c : Nat) :
    (connect w ws u c).mgr.subs
      = dinsert c (saddL u ((dget c w.mgr.subs).getD [])) w.mgr.subs := by
  rw [connect_mgr, if_pos hacc]

theorem connect_brokerOk {w : World} {ws : WSocket} {u c : Nat} (hB : BrokerOk w)
    (hk : ws.sendOk = true) : BrokerOk (connect w ws u c) := by
  cases hacc : ws.acceptOk with
  | false => rw [connect_eq_noaccept hacc]; exact hB
  | true =>
      obtain ⟨hN1, hN2, hN3, hN4⟩ := hB
      have hsubs := @connect_subs_eq w ws hacc u c
      have hbk := @connect_brokerSubs w ws hacc hk u c
      have hl1 : (connect w ws u c).brokerSubs = saddL c w.brokerSubs ∨
          ((connect w ws u c).brokerSubs = w.brokerSubs ∧
            (dget c w.mgr.subs).getD [] ≠ []) := by
        rw [hbk]
        split
        next hlen => exact Or.inl rfl
        next hlen =>
          refine Or.inr ⟨rfl, fun hnil => ?_⟩
          apply hlen
          rw [hnil]
          simp [saddL]
      refine ⟨?_, ?_, ?_, ?_⟩
      · rw [hsubs]
        exact keysNodup_dinsert hN1 c _
      · rcases hl1 with h | ⟨h, _⟩
        · rw [h]; exact nodup_saddL hN2 c
        · rw [h]; exact hN2
      · intro p hp
        rw [hsubs] at hp
        rcases mem_dinsert hp with he | he
        · subst he
          refine ⟨saddL_ne_nil u _, ?_⟩
          rcases hl1 with h | ⟨h, hne⟩
          · rw [h]; exact mem_saddL_self c _
          · rw [h]
            obtain ⟨l0, hg⟩ : ∃ l0, dget c w.mgr.subs = some l0 := by
              cases hg : dget c w.mgr.subs with
              | none => rw [hg] at hne; simp at hne
              | some l0 => exact ⟨l0, rfl⟩
            exact (hN3 (c, l0) (dget_mem hg)).2
        · obtain ⟨hne, hmem⟩ := hN3 p he
          refine ⟨hne, ?_⟩
          rcases hl1 with h | ⟨h, _⟩
          · rw [h]; exact mem_saddL_of_mem hmem c
          · rw [h]; exact hmem
      · intro c₁ hc₁
        rw [hsubs]
        have hc₁' : c₁ = c ∨ c₁ ∈ w.brokerSubs := by
          rcases hl1 with h | ⟨h, _⟩
          · rw [h] at hc₁; exact mem_saddL hc₁
          · rw [h] at hc₁; exact Or.inr hc₁
        by_cases hcc : c₁ = c
        · subst hcc
          rw [dget_dinsert_self]
          rfl
        · rcases hc₁' with h | h
          · exact absurd h hcc
          · rw [dget_dinsert_ne hcc]
            exact hN4 c₁ h

theorem disconnect_brokerOk {w : World} {u c : Nat} (hB : BrokerOk w) :
    BrokerOk (disconnect w u c) := by
  obtain ⟨hN1, hN2, hN3, hN4⟩ := hB
  cases hs : hasSession w.mgr u c with
  | false =>
      rw [disconnect_absent_eq hs]
      have hsubs : ({ w with mgr := statusFalse w.mgr u c } : World).mgr.subs = w.mgr.subs :=
        statusFalse_subs w.mgr u c
      refine ⟨by rw [hsubs]; exact hN1, hN2, ?_, ?_⟩
      · intro p hp
        rw [hsubs] at hp
        exact hN3 p hp
      · intro c₁ hc₁
        rw [hsubs]
        exact hN4 c₁ hc₁
  | true =>
      rw [disconnect_present_eq hs]
      have hsub : (dropSession ({ w with mgr := statusFalse w.mgr u c } : World) u c).mgr.subs
          = w.mgr.subs := by
        rw [dropSession_subs, statusFalse_subs]
      have hbk : (dropSession ({ w with mgr := statusFalse w.mgr u c } : World) u c).brokerSubs
          = w.brokerSubs := dropSession_brokerSubs _ u c
      cases hg : dget c w.mgr.subs with
      | none =>
          have hg' : dget c (dropSession ({ w with mgr := statusFalse w.mgr u c } : World) u c).mgr.subs = none := by
            rw [hsub]; exact hg
          simp only [subsRemove, hg']
          refine ⟨by rw [hsub]; exact hN1, by rw [hbk]; exact hN2, ?_, ?_⟩
          · intro p hp
            rw [hsub] at hp
            rw [hbk]
            exact hN3 p hp
          · intro c₁ hc₁
            rw [hbk] at hc₁
            rw [hsub]
            exact hN4 c₁ hc₁
      | some l =>
          have hg' : dget c (dropSession ({ w with mgr := statusFalse w.mgr u c } : World) u c).mgr.subs = some l := by
            rw [hsub]; exact hg
          by_cases hu : u ∈ l
          · cases hik : (sremL u l).isEmpty with
            | true =>
                simp only [subsRemove, hg', if_pos hu, hik, if_pos]
                refine ⟨?_, ?_, ?_, ?_⟩
                · rw [hsub]
                  exact keysNodup_derase hN1 c
                · rw [hbk]
                  exact nodup_sremL hN2 c
                · intro p hp
                  rw [hsub] at hp
                  obtain ⟨hpm, hpne⟩ := mem_derase_nodup hN1 hp
                  obtain ⟨hne, hmem⟩ := hN3 p hpm
                  rw [hbk]
                  exact ⟨hne, mem_sremL_of_ne hmem hpne⟩
                · intro c₁ hc₁
                  rw [hbk] at hc₁
                  have hcne : c₁ ≠ c := ne_of_mem_sremL hN2 hc₁
                  rw [hsub]
                  rw [dget_derase_ne hcne]
                  exact hN4 c₁ (mem_of_mem_sremL hc₁)
            | false =>
                simp only [subsRemove, hg', if_pos hu, hik, Bool.false_eq_true, if_false]
                refine ⟨?_, ?_, ?_, ?_⟩
                · rw [hsub]
                  exact keysNodup_dinsert hN1 c _
                · rw [hbk]
                  exact hN2
                · intro p hp
                  rw [hsub] at hp
                  rw [hbk]
                  rcases mem_dinsert hp with he | he
                  · subst he
                    refine ⟨fun hnil => ?_, (hN3 (c, l) (dget_mem hg)).2⟩
                    have h2 : sremL u l = [] := hnil
                    rw [h2] at hik
                    simp at hik
                  · exact hN3 p he
                · intro c₁ hc₁
                  rw [hbk] at hc₁
                  rw [hsub]
                  by_cases hcc : c₁ = c
                  · subst hcc
                    rw [dget_dinsert_self]
                    rfl
                  · rw [dget_dinsert_ne hcc]
                    exact hN4 c₁ hc₁
          · simp only [subsRemove, hg', if_neg hu]
            refine ⟨by rw [hsub]; exact hN1, by rw [hbk]; exact hN2, ?_, ?_⟩
            · intro p hp
              rw [hsub] at hp
              rw [hbk]
              exact hN3 p hp
            · intro c₁ hc₁
              rw [hbk] at hc₁
              rw [hsub]
              exact hN4 c₁ hc₁

theorem runOps_brokerOk :
    ∀ (ops : List Op) (w : World), (∀ op ∈ ops, goodOp op = true) → BrokerOk w →
      BrokerOk (runOps w ops) := by
  intro ops
  induction ops with
  | nil => intro w _ h; exact h
  | cons op t ih =>
      intro w hgood h
      refine ih (stepOp w op) (fun op' hop' => hgood op' (List.mem_cons_of_mem _ hop')) ?_
      cases op with
      | connect ws u c =>
          exact connect_brokerOk h
            (by simpa [goodOp] using hgood (Op.connect ws u c) (List.mem_cons_self _ _))
      | disconnect u c => exact disconnect_brokerOk h
      | send e u c =>
          exact send_preserves BrokerOk (fun _ _ hh => hh)
            (fun w' u' c' hh => disconnect_brokerOk hh) w e u c h
      | broadcast c e =>
          exact broadcast_preserves BrokerOk (fun _ _ hh => hh)
            (fun w' u' c' hh => disconnect_brokerOk hh) w c e h

theorem dinsert_ne_nil {α : Type u} (k : Nat) (v : α) (l : List (Nat × α)) :
    dinsert k v l ≠ [] := by
  cases l with
  | nil => simp [dinsert]
  | cons q t =>
      by_cases hq : q.1 = k <;> simp [dinsert, hq]

theorem iuic_iff (m : Manager) (u c : Nat) :
    is_user_in_channel m u c = true ↔
      ∃ smap, dget u m.status = some smap ∧ dget c smap = some true := by
  unfold is_user_in_channel
  cases hst : dget u m.status with
  | none => simp
  | some smap =>
      cases hsc : dget c smap with
      | none => simp [hsc]
      | some b => cases b <;> simp [hsc]

theorem hasSession_iff (m : Manager) (u c : Nat) :
    hasSession m u c = true ↔
      ∃ chans, dget u m.active = some chans ∧ (dget c chans).isSome = true := by
  unfold hasSession
  cases hact : dget u m.active with
  | none => simp
  | some chans =>
      constructor
      · intro h
        exact ⟨chans, rfl, h⟩
      · rintro ⟨chans', he, h⟩
        rw [Option.some_inj] at he
        rw [he]
        exact h

theorem connect_statusOk {w : World} {ws : WSocket} {u c : Nat} (hS : statusSessionOk w.mgr) :
    statusSessionOk (connect w ws u c).mgr := by
  cases hacc : ws.acceptOk with
  | false => rw [connect_eq_noaccept hacc]; exact hS
  | true =>
      rw [connect_mgr, if_pos hacc]
      intro p hp q hq hqt
      rw [hasSession_iff]
      simp only [] at hp hq ⊢
      rcases mem_dinsert hp with he | he
      · subst he
        rcases mem_dinsert hq with he' | he'
        · subst he'
          refine ⟨dinsert c ws ((dget u w.mgr.active).getD []), dget_dinsert_self u _ _, ?_⟩
          rw [dget_dinsert_self]
          rfl
        · -- an old status entry of user u
          cases hst : dget u w.mgr.status with
          | none =>
              rw [hst] at he'
              simp at he'
          | some smap0 =>
              rw [hst] at he'
              simp only [Option.getD_some] at he'
              have hold := hS (u, smap0) (dget_mem hst) q he' hqt
              rw [hasSession_iff] at hold
              obtain ⟨chansP, hactP, hsome⟩ := hold
              refine ⟨dinsert c ws ((dget u w.mgr.active).getD []), dget_dinsert_self u _ _, ?_⟩
              by_cases hqc : q.1 = c
              · rw [hqc, dget_dinsert_self]
                rfl
              · rw [dget_dinsert_ne hqc, hactP]
                simpa using hsome
      · have hold := hS p he q hq hqt
        rw [hasSession_iff] at hold
        obtain ⟨chansP, hactP, hsome⟩ := hold
        by_cases hpu : p.1 = u
        · refine ⟨dinsert c ws ((dget u w.mgr.active).getD []), by rw [hpu]; exact dget_dinsert_self u _ _, ?_⟩
          by_cases hqc : q.1 = c
          · rw [hqc, dget_dinsert_self]
            rfl
          · rw [dget_dinsert_ne hqc]
            rw [hpu] at hactP
            rw [hactP]
            simpa using hsome
        · refine ⟨chansP, ?_, hsome⟩
          rw [dget_dinsert_ne hpu]
          exact hactP

theorem disconnect_present_active {w : World} {u c : Nat} {chans : List (Nat × WSocket)}
    (hs : hasSession w.mgr u c = true) (hact : dget u w.mgr.active = some chans) :
    (disconnect w u c).mgr.active =
      if (derase c chans).isEmpty then derase u w.mgr.active
      else dinsert u (derase c chans) w.mgr.active := by
  rw [disconnect_present_eq hs, subsRemove_active]
  have hget : (dget u ({ w with mgr := statusFalse w.mgr u c } : World).mgr.active).getD []
      = chans := by
    rw [show ({ w with mgr := statusFalse w.mgr u c } : World).mgr.active = w.mgr.active
      from statusFalse_active w.mgr u c, hact]
    rfl
  cases hik : (derase c chans).isEmpty with
  | true =>
      rw [if_pos rfl]
      simp only [dropSession, hget, hik, if_pos]
      rw [show ({ w with mgr := statusFalse w.mgr u c } : World).mgr.active = w.mgr.active
        from statusFalse_active w.mgr u c]
  | false =>
      simp only [Bool.false_eq_true, if_false]
      simp only [dropSession, hget, hik, Bool.false_eq_true, if_false]
      rw [show ({ w with mgr := statusFalse w.mgr u c } : World).mgr.active = w.mgr.active
        from statusFalse_active w.mgr u c]

theorem disconnect_present_online {w : World} {u c : Nat} {chans : List (Nat × WSocket)}
    (hs : hasSession w.mgr u c = true) (hact : dget u w.mgr.active = some chans) :
    (disconnect w u c).online =
      if (derase c chans).isEmpty then sremL u w.online else w.online := by
  rw [disconnect_present_eq hs, subsRemove_online]
  have hget : (dget u ({ w with mgr := statusFalse w.mgr u c } : World).mgr.active).getD []
      = chans := by
    rw [show ({ w with mgr := statusFalse w.mgr u c } : World).mgr.active = w.mgr.active
      from statusFalse_active w.mgr u c, hact]
    rfl
  cases hik : (derase c chans).isEmpty with
  | true =>
      rw [if_pos rfl]
      simp only [dropSession, hget, hik, if_pos]
  | false =>
      simp only [Bool.false_eq_true, if_false]
      simp only [dropSession, hget, hik, Bool.false_eq_true, if_false]

theorem disconnect_present_status {w : World} {u c : Nat} {chans : List (Nat × WSocket)}
    (hs : hasSession w.mgr u c = true) (hact : dget u w.mgr.active = some chans) :
    (disconnect w u c).mgr.status =
      if (derase c chans).isEmpty then derase u (statusFalse w.mgr u c).status
      else (statusFalse w.mgr u c).status := by
  rw [disconnect_present_eq hs, subsRemove_status]
  have hget : (dget u ({ w with mgr := statusFalse w.mgr u c } : World).mgr.active).getD []
      = chans := by
    rw [show ({ w with mgr := statusFalse w.mgr u c } : World).mgr.active = w.mgr.active
      from statusFalse_active w.mgr u c, hact]
    rfl
  cases hik : (derase c chans).isEmpty with
  | true =>
      rw [if_pos rfl]
      simp only [dropSession, hget, hik, if_pos]
  | false =>
      simp only [Bool.false_eq_true, if_false]
      simp only [dropSession, hget, hik, Bool.false_eq_true, if_false]

theorem statusFalse_iuic_of_other {m : Manager} {u c u₁ c₁ : Nat}
    (hne : ¬(u₁ = u ∧ c₁ = c)) (h : is_user_in_channel m u₁ c₁ = true) :
    is_user_in_channel (statusFalse m u c) u₁ c₁ = true := by
  rw [iuic_iff] at h ⊢
  obtain ⟨smap, hst, hsc⟩ := h
  by_cases hu : u₁ = u
  · subst hu
    have hc : c₁ ≠ c := fun he => hne ⟨rfl, he⟩
    cases hscm : (dget c smap).isSome with
    | false =>
        refine ⟨smap, ?_, hsc⟩
        simp [statusFalse, hst, hscm]
    | true =>
        refine ⟨dinsert c false smap, ?_, ?_⟩
        · simp only [statusFalse, hst, hscm, if_pos]
          exact dget_dinsert_self u₁ _ _
        · rw [dget_dinsert_ne hc]
          exact hsc
  · refine ⟨smap, ?_, hsc⟩
    rw [statusFalse_status_dget_ne hu]
    exact hst

theorem disconnect_iuic_of_other {w : World} {u c u₁ c₁ : Nat} (hT : Tidy w.mgr)
    (hS : statusSessionOk w.mgr) (hne : ¬(u₁ = u ∧ c₁ = c))
    (h : is_user_in_channel w.mgr u₁ c₁ = true) :
    is_user_in_channel (disconnect w u c).mgr u₁ c₁ = true := by
  obtain ⟨_, hAc, hSt, _, _, _⟩ := hT
  cases hs : hasSession w.mgr u c with
  | false =>
      rw [disconnect_absent_eq hs]
      exact statusFalse_iuic_of_other hne h
  | true =>
      obtain ⟨chans, hact⟩ : ∃ chans, dget u w.mgr.active = some chans := by
        cases hact : dget u w.mgr.active with
        | none => simp [hasSession, hact] at hs
        | some chans => exact ⟨chans, rfl⟩
      have hstf := statusFalse_iuic_of_other hne h
      rw [iuic_iff] at hstf
      obtain ⟨smap', hst', hsc'⟩ := hstf
      rw [iuic_iff]
      have hstatus := disconnect_present_status hs hact
      cases hik : (derase c chans).isEmpty with
      | true =>
          by_cases hu : u₁ = u
          · -- impossible: `u` would need another live channel `c₁ ≠ c`
            exfalso
            subst hu
            have hc : c₁ ≠ c := fun he => hne ⟨rfl, he⟩
            rw [iuic_iff] at h
            obtain ⟨smap, hst, hsc⟩ := h
            have hses := hS (u₁, smap) (dget_mem hst) (c₁, true) (dget_mem hsc) rfl
            rw [hasSession_iff] at hses
            obtain ⟨chansU, hactU, hsomeU⟩ := hses
            rw [hact] at hactU
            rw [Option.some_inj] at hactU
            subst hactU
            rcases eq_of_derase_nil (List.isEmpty_iff.mp hik) with hnil | ⟨v, hone⟩
            · rw [hnil] at hsomeU
              simp [dget] at hsomeU
            · rw [hone] at hsomeU
              have hc' : ¬c = c₁ := fun he => hc he.symm
              simp [dget, hc'] at hsomeU
          · refine ⟨smap', ?_, hsc'⟩
            rw [hstatus, hik, if_pos rfl, dget_derase_ne hu]
            exact hst'
      | false =>
          refine ⟨smap', ?_, hsc'⟩
          rw [hstatus, hik]
          simp only [Bool.false_eq_true, if_false]
          exact hst'

theorem connect_presenceOk {w : World} {ws : WSocket} {u c : Nat} (hP : PresenceOk w)
    (hk : ws.sendOk = true) : PresenceOk (connect w ws u c) := by
  obtain ⟨hT, hS, hA3, hC4, hD1, hD2, hN7⟩ := hP
  cases hacc : ws.acceptOk with
  | false => rw [connect_eq_noaccept hacc]; exact ⟨hT, hS, hA3, hC4, hD1, hD2, hN7⟩
  | true =>
      have hmgr := connect_mgr w ws u c
      rw [if_pos hacc] at hmgr
      have honl := @connect_online w ws hacc hk u c
      have hch0 : keysNodup ((dget u w.mgr.active).getD []) := by
        cases hact : dget u w.mgr.active with
        | none => simp [keysNodup]
        | some chans => exact hT.2.1 _ (dget_mem hact)
      refine ⟨connect_tidy hT ws u c, connect_statusOk hS, ?_, ?_, ?_, ?_, ?_⟩
      · -- non-empty active rows
        intro p hp
        rw [hmgr] at hp
        rcases mem_dinsert hp with he | he
        · rw [he]
          exact dinsert_ne_nil c ws _
        · exact hA3 p he
      · -- every registered connection has a True status entry
        intro p hp q hq
        rw [hmgr] at hp ⊢
        rw [iuic_iff]
        simp only [] at hp hq ⊢
        rcases mem_dinsert hp with he | he
        · subst he
          simp only [] at hq
          rcases mem_dinsert hq with he' | he'
          · subst he'
            refine ⟨dinsert c true ((dget u w.mgr.status).getD []), dget_dinsert_self u _ _, ?_⟩
            exact dget_dinsert_self c true _
          · -- an existing channel of user u
            cases hact : dget u w.mgr.active with
            | none =>
                rw [hact] at he'
                simp at he'
            | some chans0 =>
                rw [hact] at he'
                simp only [Option.getD_some] at he'
                have hold := hC4 (u, chans0) (dget_mem hact) q he'
                rw [iuic_iff] at hold
                obtain ⟨smapP, hstP, hscP⟩ := hold
                refine ⟨dinsert c true ((dget u w.mgr.status).getD []), dget_dinsert_self u _ _, ?_⟩
                by_cases hqc : q.1 = c
                · rw [hqc]
                  exact dget_dinsert_self c true _
                · rw [dget_dinsert_ne hqc, hstP]
                  simpa using hscP
        · have hold := hC4 p he q hq
          rw [iuic_iff] at hold
          obtain ⟨smapP, hstP, hscP⟩ := hold
          by_cases hpu : p.1 = u
          · refine ⟨dinsert c true ((dget u w.mgr.status).getD []),
              by rw [hpu]; exact dget_dinsert_self u _ _, ?_⟩
            by_cases hqc : q.1 = c
            · rw [hqc]
              exact dget_dinsert_self c true _
            · rw [dget_dinsert_ne hqc]
              rw [hpu] at hstP
              rw [hstP]
              simpa using hscP
          · refine ⟨smapP, ?_, hscP⟩
            rw [dget_dinsert_ne hpu]
            exact hstP
      · -- online members have a registered row
        intro x hx
        rw [honl] at hx
        rw [hmgr]
        simp only []
        by_cases hxu : x = u
        · rw [hxu, dget_dinsert_self]
          rfl
        · rcases mem_saddL hx with he | he
          · exact absurd he hxu
          · rw [dget_dinsert_ne hxu]
            exact hD1 x he
      · -- registered users are online
        intro p hp
        rw [hmgr] at hp
        rw [honl]
        rcases mem_dinsert hp with he | he
        · rw [he]
          exact mem_saddL_self u w.online
        · exact mem_saddL_of_mem (hD2 p he) u
      · rw [honl]
        exact nodup_saddL hN7 u

theorem disconnect_presenceOk {w : World} {u c : Nat} (hP : PresenceOk w) :
    PresenceOk (disconnect w u c) := by
  obtain ⟨hT, hS, hA3, hC4, hD1, hD2, hN7⟩ := hP
  refine ⟨disconnect_tidy hT u c, disconnect_statusOk hT hS, ?_, ?_, ?_, ?_, ?_⟩
  all_goals cases hs : hasSession w.mgr u c
  -- non-empty rows, session absent
  case false =>
      rw [disconnect_absent_eq hs]
      intro p hp
      rw [show ({ w with mgr := statusFalse w.mgr u c } : World).mgr.active
        = w.mgr.active from statusFalse_active w.mgr u c] at hp
      exact hA3 p hp
  case true =>
      obtain ⟨chans, hact⟩ : ∃ chans, dget u w.mgr.active = some chans := by
        cases hact : dget u w.mgr.active with
        | none => simp [hasSession, hact] at hs
        | some chans => exact ⟨chans, rfl⟩
      intro p hp
      rw [disconnect_present_active hs hact] at hp
      cases hik : (derase c chans).isEmpty with
      | true =>
          rw [hik, if_pos rfl] at hp
          exact hA3 p (mem_derase hp)
      | false =>
          rw [hik] at hp
          simp only [Bool.false_eq_true, if_false] at hp
          rcases mem_dinsert hp with he | he
          · rw [he]
            intro hnil
            have h2 : derase c chans = [] := hnil
            rw [h2] at hik
            simp at hik
          · exact hA3 p he
  -- session → status, session absent
  case false =>
      intro p hp q hq
      rw [disconnect_absent_eq hs] at hp ⊢
      rw [show ({ w with mgr := statusFalse w.mgr u c } : World).mgr.active
        = w.mgr.active from statusFalse_active w.mgr u c] at hp
      have hold := hC4 p hp q hq
      have hne : ¬(p.1 = u ∧ q.1 = c) := by
        rintro ⟨hpu, hqc⟩
        rw [iuic_iff] at hold
        obtain ⟨smap, hst, hsc⟩ := hold
        have hses := hS (p.1, smap) (dget_mem hst) (q.1, true) (dget_mem hsc) rfl
        rw [hpu, hqc] at hses
        rw [hs] at hses
        exact Bool.noConfusion hses
      exact statusFalse_iuic_of_other hne hold
  case true =>
      obtain ⟨chans, hact⟩ : ∃ chans, dget u w.mgr.active = some chans := by
        cases hact : dget u w.mgr.active with
        | none => simp [hasSession, hact] at hs
        | some chans => exact ⟨chans, rfl⟩
      intro p hp q hq
      rw [disconnect_present_active hs hact] at hp
      have hkc : keysNodup chans := hT.2.1 _ (dget_mem hact)
      have hkeyact : keysNodup w.mgr.active := hT.1
      cases hik : (derase c chans).isEmpty with
      | true =>
          rw [hik, if_pos rfl] at hp
          obtain ⟨hpm, hpu⟩ := mem_derase_nodup hkeyact hp
          exact disconnect_iuic_of_other hT hS (fun hb => hpu hb.1) (hC4 p hpm q hq)
      | false =>
          rw [hik] at hp
          simp only [Bool.false_eq_true, if_false] at hp
          rcases mem_dinsert_nodup hkeyact hp with he | ⟨hpm, hpu⟩
          · -- p is the rewritten row of user u
            subst he
            simp only [] at hq
            obtain ⟨hqm, hqc⟩ := mem_derase_nodup hkc hq
            exact disconnect_iuic_of_other hT hS (fun hb => hqc hb.2)
              (hC4 (u, chans) (dget_mem hact) q hqm)
          · exact disconnect_iuic_of_other hT hS (fun hb => hpu hb.1) (hC4 p hpm q hq)
  -- online → registered, session absent
  case false =>
      rw [disconnect_absent_eq hs]
      intro x hx
      rw [show ({ w with mgr := statusFalse w.mgr u c } : World).mgr.active
        = w.mgr.active from statusFalse_active w.mgr u c]
      exact hD1 x hx
  case true =>
      obtain ⟨chans, hact⟩ : ∃ chans, dget u w.mgr.active = some chans := by
        cases hact : dget u w.mgr.active with
        | none => simp [hasSession, hact] at hs
        | some chans => exact ⟨chans, rfl⟩
      intro x hx
      rw [disconnect_present_online hs hact] at hx
      rw [disconnect_present_active hs hact]
      cases hik : (derase c chans).isEmpty with
      | true =>
          rw [if_pos hik] at hx
          rw [if_pos rfl]
          have hxo : x ∈ w.online := mem_of_mem_sremL hx
          have hxu : x ≠ u := ne_of_mem_sremL hN7 hx
          rw [dget_derase_ne hxu]
          exact hD1 x hxo
      | false =>
          rw [if_neg (show ¬(derase c chans).isEmpty = true by rw [hik]; simp)] at hx
          simp only [Bool.false_eq_true, if_false]
          by_cases hxu : x = u
          · rw [hxu, dget_dinsert_self]
            rfl
          · rw [dget_dinsert_ne hxu]
            exact hD1 x hx
  -- registered → online, session absent
  case false =>
      rw [disconnect_absent_eq hs]
      intro p hp
      rw [show ({ w with mgr := statusFalse w.mgr u c } : World).mgr.active
        = w.mgr.active from statusFalse_active w.mgr u c] at hp
      exact hD2 p hp
  case true =>
      obtain ⟨chans, hact⟩ : ∃ chans, dget u w.mgr.active = some chans := by
        cases hact : dget u w.mgr.active with
        | none => simp [hasSession, hact] at hs
        | some chans => exact ⟨chans, rfl⟩
      intro p hp
      rw [disconnect_present_active hs hact] at hp
      rw [disconnect_present_online hs hact]
      cases hik : (derase c chans).isEmpty with
      | true =>
          rw [if_pos hik] at hp
          rw [if_pos rfl]
          obtain ⟨hpm, hpu⟩ := mem_derase_nodup hT.1 hp
          exact mem_sremL_of_ne (hD2 p hpm) hpu
      | false =>
          rw [if_neg (show ¬(derase c chans).isEmpty = true by rw [hik]; simp)] at hp
          simp only [Bool.false_eq_true, if_false]
          rcases mem_dinsert hp with he | he
          · rw [he]
            exact hD2 (u, chans) (dget_mem hact)
          · exact hD2 p he
  -- online set stays duplicate-free
  case false =>
      rw [disconnect_absent_eq hs]
      exact hN7
  case true =>
      obtain ⟨chans, hact⟩ : ∃ chans, dget u w.mgr.active = some chans := by
        cases hact : dget u w.mgr.active with
        | none => simp [hasSession, hact] at hs
        | some chans => exact ⟨chans, rfl⟩
      rw [disconnect_present_online hs hact]
      cases hik : (derase c chans).isEmpty with
      | true =>
          rw [if_pos rfl]
          exact nodup_sremL hN7 u
      | false =>
          simp only [Bool.false_eq_true, if_false]
          exact hN7

theorem runOps_presenceOk :
    ∀ (ops : List Op) (w : World), (∀ op ∈ ops, goodOp op = true) → PresenceOk w →
      PresenceOk (runOps w ops) := by
  intro ops
  induction ops with
  | nil => intro w _ h; exact h
  | cons op t ih =>
      intro w hgood h
      refine ih (stepOp w op) (fun op' hop' => hgood op' (List.mem_cons_of_mem _ hop')) ?_
      cases op with
      | connect ws u c =>
          exact connect_presenceOk h
            (by simpa [goodOp] using hgood (Op.connect ws u c) (List.mem_cons_self _ _))
      | disconnect u c => exact disconnect_presenceOk h
      | send e u c =>
          exact send_preserves PresenceOk (fun _ _ hh => hh)
            (fun w' u' c' hh => disconnect_presenceOk hh) w e u c h
      | broadcast c e =>
          exact broadcast_preserves PresenceOk (fun _ _ hh => hh)
            (fun w' u' c' hh => disconnect_presenceOk hh) w c e h

theorem presence_conclusion {w : World} (hP : PresenceOk w) (u : Nat) :
    (is_user_connected w.mgr u = true ↔ (dget u w.mgr.active).isSome = true) ∧
    (u ∈ w.online ↔ (dget u w.mgr.active).isSome = true) := by
  obtain ⟨hT, hS, hA3, hC4, hD1, hD2, hN7⟩ := hP
  refine ⟨⟨?_, ?_⟩, ⟨fun h => hD1 u h, ?_⟩⟩
  · intro h
    unfold is_user_connected at h
    cases hst : dget u w.mgr.status with
    | none => rw [hst] at h; exact Bool.noConfusion h
    | some smap =>
        rw [hst] at h
        obtain ⟨q, hq, hq2⟩ := List.any_eq_true.mp h
        have hses := hS (u, smap) (dget_mem hst) q hq hq2
        rw [hasSession_iff] at hses
        obtain ⟨chans, hact, _⟩ := hses
        rw [hact]
        rfl
  · intro h
    obtain ⟨chans, hact⟩ := Option.isSome_iff_exists.mp h
    obtain ⟨q, hq⟩ := List.exists_mem_of_ne_nil _ (hA3 (u, chans) (dget_mem hact))
    have hiu := hC4 (u, chans) (dget_mem hact) q hq
    rw [iuic_iff] at hiu
    obtain ⟨smap, hst, hsc⟩ := hiu
    unfold is_user_connected
    rw [hst]
    exact List.any_eq_true.mpr ⟨(q.1, true), dget_mem hsc, rfl⟩
  · intro h
    obtain ⟨chans, hact⟩ := Option.isSome_iff_exists.mp h
    exact hD2 (u, chans) (dget_mem hact)

theorem forall₂_status_refl (l : List Msg) :
    List.Forall₂ (fun m m' : Msg => m.id = m'.id ∧ statusRank m.status ≤ statusRank m'.status)
      l l :=
  List.forall₂_same.mpr (fun x _ => ⟨rfl, le_refl _⟩)

theorem setFirst_forall₂ {mid : Nat} {st : MessageStatus} :
    ∀ l : List Msg, (∀ m ∈ l, m.id = mid → statusRank m.status ≤ statusRank st) →
      List.Forall₂ (fun m m' : Msg => m.id = m'.id ∧ statusRank m.status ≤ statusRank m'.status)
        l (setFirst mid st l) := by
  intro l
  induction l with
  | nil => intro _; exact List.Forall₂.nil
  | cons m t ih =>
      intro h
      by_cases hm : m.id = mid
      · simp only [setFirst, if_pos hm]
        exact List.Forall₂.cons ⟨rfl, h m (by simp) hm⟩ (forall₂_status_refl t)
      · simp only [setFirst, if_neg hm]
        exact List.Forall₂.cons ⟨rfl, le_refl _⟩
          (ih (fun m' hm' him => h m' (List.mem_cons_of_mem _ hm') him))

/-! ### Claims -/

/-- Claim C1 (amended): for every sequence of operations in which each
`connect`'s confirmation send succeeds, a broker (Redis) subscription for a
channel exists on the process if and only if that channel's local subscriber
set is non-empty, after every operation.  (The unamended claim fails when a
connect's confirmation `send_json` raises: the subscriber is registered but
the `redis_client.subscribe` at line 67 is skipped — see the
counterexample.) -/
theorem broker_subscription_iff_subscribers (ops : List Op)
    (hgood : ∀ op ∈ ops, goodOp op = true) (c : Nat) :
    c ∈ (runOps w0 ops).brokerSubs ↔ subsOf (runOps w0 ops).mgr c ≠ [] := by
  have hB : BrokerOk (runOps w0 ops) := runOps_brokerOk ops w0 hgood (by decide)
  obtain ⟨hN1, hN2, hN3, hN4⟩ := hB
  constructor
  · intro h
    obtain ⟨l, hg⟩ := Option.isSome_iff_exists.mp (hN4 c h)
    have hne := (hN3 (c, l) (dget_mem hg)).1
    unfold subsOf
    rw [hg]
    simpa using hne
  · intro h
    unfold subsOf at h
    cases hg : dget c (runOps w0 ops).mgr.subs with
    | none => rw [hg] at h; simp at h
    | some l => exact (hN3 (c, l) (dget_mem hg)).2

/-- Claim C1 counterexample: a single `connect` whose confirmation send
fails (socket `wsBadSend`) leaves channel 1 with subscriber set `[1]` but no
broker subscription, refuting the claimed iff for plain connect/disconnect
sequences. -/
theorem broker_subscription_iff_cex :
    ¬ (1 ∈ (runOps w0 [Op.connect wsBadSend 1 1]).brokerSubs ↔
        subsOf (runOps w0 [Op.connect wsBadSend 1 1]).mgr 1 ≠ []) := by
  decide

/-- Witness for C1: a healthy connect followed by a disconnect satisfies the
hypothesis, and the iff holds in the resulting state. -/
theorem broker_subscription_iff_witness :
    (∀ op ∈ [Op.connect wsGood 1 1, Op.disconnect 1 1], goodOp op = true) ∧
    (1 ∈ (runOps w0 [Op.connect wsGood 1 1, Op.disconnect 1 1]).brokerSubs ↔
      subsOf (runOps w0 [Op.connect wsGood 1 1, Op.disconnect 1 1]).mgr 1 ≠ []) :=
  ⟨by decide, broker_subscription_iff_subscribers _ (by decide) 1⟩

/-- Claim C2: for every persisted inbound frame, the `message` event
published to the channel topic carries exactly the persisted row's id,
content, sender_id, channel_id and status; `create_message` always returns a
message whose initial status is SENT; and the published message is stored in
the resulting database state. -/
theorem published_message_matches_persisted (w : World) (db : DB) (wsOk : Bool)
    (u c : Nat) (s : String) :
    (create_message db s c u).1.status = MessageStatus.sent ∧
    processFrame w db wsOk u c (Frame.content s true) =
      ({ w with log := Eff.publish c (OutEvent.message
          ⟨(create_message db s c u).1.id, (create_message db s c u).1.content,
           (create_message db s c u).1.sender_id, (create_message db s c u).1.channel_id,
           (create_message db s c u).1.status⟩) :: w.log },
       (create_message db s c u).2, true) ∧
    (create_message db s c u).1 ∈ (create_message db s c u).2.messages := by
  refine ⟨rfl, rfl, ?_⟩
  simp [create_message]

/-- Claim C3, the code bug: `broadcast_to_channel` does iterate the
call-time snapshot, but it delivers the event to none of its members and
disconnects all of them, even when every socket is healthy.  Its per-user
`send_personal_message` call never writes, because the write guard at line
119 is constant-`False` (see `client_state_DISCONNECTED_truthy`).  Here
channel 1's snapshot is `[1]` and user 1's socket (`wsGood`) is open and
writable, yet after the broadcast no `wsDeliver` of the event — successful
or failed — is on the log, and user 1's session and subscription are gone. -/
theorem broadcast_delivers_none_disconnects_all :
    subsOf (connect w0 wsGood 1 1).mgr 1 = [1] ∧
    wsGood.sendOk = true ∧
    Eff.wsDeliver 1 1 (OutEvent.notification "hi") true ∉
      (broadcast_to_channel (connect w0 wsGood 1 1) 1 (OutEvent.notification "hi")).log ∧
    Eff.wsDeliver 1 1 (OutEvent.notification "hi") false ∉
      (broadcast_to_channel (connect w0 wsGood 1 1) 1 (OutEvent.notification "hi")).log ∧
    hasSession
      (broadcast_to_channel (connect w0 wsGood 1 1) 1 (OutEvent.notification "hi")).mgr 1 1
      = false ∧
    subsOf
      (broadcast_to_channel (connect w0 wsGood 1 1) 1 (OutEvent.notification "hi")).mgr 1
      = [] := by
  decide

/-- Claim C4: `disconnect` is idempotent.  In a tidy state whose `True`
status entries correspond to registered connections (true of every reachable
state), disconnecting an absent session is a complete no-op — the whole
`World` is unchanged, so no registry entry moves, no broker unsubscribe and
no online-set SREM is performed (the effect log is part of the equality) —
and a second disconnect right after a first one changes nothing. -/
theorem disconnect_idempotent (w : World) (u c : Nat) (hT : Tidy w.mgr)
    (hS : statusSessionOk w.mgr) :
    (hasSession w.mgr u c = false → disconnect w u c = w) ∧
    disconnect (disconnect w u c) u c = disconnect w u c :=
  ⟨fun h => disconnect_of_absent hS h, disconnect_disconnect u c hT⟩

/-- Witness for C4: in a state with one session of user 1 on channel 1,
disconnecting the absent session (2, 5) is the identity, and a double
disconnect equals a single one. -/
theorem disconnect_idempotent_witness :
    Tidy (connect w0 wsGood 1 1).mgr ∧ statusSessionOk (connect w0 wsGood 1 1).mgr ∧
    disconnect (connect w0 wsGood 1 1) 2 5 = connect w0 wsGood 1 1 ∧
    disconnect (disconnect (connect w0 wsGood 1 1) 2 5) 2 5
      = disconnect (connect w0 wsGood 1 1) 2 5 :=
  ⟨by decide, by decide,
    (disconnect_idempotent (connect w0 wsGood 1 1) 2 5 (by decide) (by decide)).1 (by decide),
    (disconnect_idempotent (connect w0 wsGood 1 1) 2 5 (by decide) (by decide)).2⟩

/-- Claim C5, the code bug: `send_personal_message` never returns `true`.
Its write guard at line 119, `not websocket.client_state.DISCONNECTED`, is
an attribute access on the `WebSocketState` enum member and therefore
constant-truthy, so the guard is constant-`False` and the `send_json` /
`return True` branch at lines 120-121 is dead code.  Even for a registered
session whose socket is open and writable (`wsGood`), the function performs
no transport write, disconnects the session and returns `false` — whereas
the claim says such a send returns `true`.  (The failure half of the claim
does hold: the function is total, returns `false`, and `is_user_in_channel`
answers `false` afterwards.) -/
theorem send_healthy_socket_disconnects :
    wsGood.sendOk = true ∧
    (send_personal_message (connect w0 wsGood 1 1) (OutEvent.notification "x") 1 1).2 = false ∧
    Eff.wsDeliver 1 1 (OutEvent.notification "x") true ∉
      (send_personal_message (connect w0 wsGood 1 1) (OutEvent.notification "x") 1 1).1.log ∧
    is_user_in_channel
      (send_personal_message (connect w0 wsGood 1 1) (OutEvent.notification "x") 1 1).1.mgr
      1 1 = false ∧
    hasSession
      (send_personal_message (connect w0 wsGood 1 1) (OutEvent.notification "x") 1 1).1.mgr
      1 1 = false := by
  decide

/-- Claim C6 (amended): over any operation sequence in which each connect's
confirmation send succeeds, `is_user_connected` answers `true` exactly while
the user has at least one registered session on the process, and the shared
`online_users` set contains exactly the users with at least one registered
session — so a user is added on (successful) connect and removed only when
their last session on the process closes.  (The unamended claim fails: a
connect whose confirmation send raises registers the session but skips the
`add_to_set` at line 70 — see the counterexample.) -/
theorem presence_tracks_sessions (ops : List Op)
    (hgood : ∀ op ∈ ops, goodOp op = true) (u : Nat) :
    (is_user_connected (runOps w0 ops).mgr u = true ↔
      (dget u (runOps w0 ops).mgr.active).isSome = true) ∧
    (u ∈ (runOps w0 ops).online ↔
      (dget u (runOps w0 ops).mgr.active).isSome = true) :=
  presence_conclusion (runOps_presenceOk ops w0 hgood (by decide)) u

/-- Claim C6 counterexample: after a connect whose confirmation send fails,
user 1 has an open session (`is_user_connected` is true) but was never added
to the shared online set, refuting "U is added on connect". -/
theorem presence_tracks_sessions_cex :
    is_user_connected (runOps w0 [Op.connect wsBadSend 1 1]).mgr 1 = true ∧
    1 ∉ (runOps w0 [Op.connect wsBadSend 1 1]).online := by
  decide

/-- Witness for C6: one healthy connect; user 1 is connected and online. -/
theorem presence_tracks_sessions_witness :
    (∀ op ∈ [Op.connect wsGood 1 1], goodOp op = true) ∧
    ((is_user_connected (runOps w0 [Op.connect wsGood 1 1]).mgr 1 = true ↔
      (dget 1 (runOps w0 [Op.connect wsGood 1 1]).mgr.active).isSome = true) ∧
    (1 ∈ (runOps w0 [Op.connect wsGood 1 1]).online ↔
      (dget 1 (runOps w0 [Op.connect wsGood 1 1]).mgr.active).isSome = true)) :=
  ⟨by decide, presence_tracks_sessions _ (by decide) 1⟩

/-- Claim C7: a frame whose decode or persistence fails is answered with an
`error` event on the same session, nothing is published for it, the
database is unchanged, and the receive loop continues (the endpoint keeps
the connection open); moreover, for every frame, anything published by the
loop body is either an older log entry or the canonical form of a message
stored in the resulting database — published events correspond to durably
stored messages. -/
theorem frame_error_no_publish (w : World) (db : DB) (u c : Nat) (f : Frame)
    (hf : f = Frame.malformed ∨ ∃ s, f = Frame.content s false) :
    (processFrame w db true u c f =
      ({ w with log := Eff.wsDeliver u c (OutEvent.error "Error processing your message") true :: w.log },
        db, true)) ∧
    (∀ (f' : Frame) (wsOk : Bool) (c₁ : Nat) (e : OutEvent),
      Eff.publish c₁ e ∈ (processFrame w db wsOk u c f').1.log →
      Eff.publish c₁ e ∈ w.log ∨
        ∃ m ∈ (processFrame w db wsOk u c f').2.1.messages,
          e = OutEvent.message ⟨m.id, m.content, m.sender_id, m.channel_id, m.status⟩) := by
  constructor
  · rcases hf with rfl | ⟨s, rfl⟩ <;> rfl
  · intro f' wsOk c₁ e hmem
    cases f' with
    | malformed =>
        unfold processFrame errorReply at hmem ⊢
        cases wsOk <;> simp_all
    | content s pok =>
        cases pok with
        | false =>
            unfold processFrame errorReply at hmem ⊢
            cases wsOk <;> simp_all
        | true =>
            unfold processFrame at hmem ⊢
            simp only [List.mem_cons] at hmem
            rcases hmem with he | he
            · refine Or.inr ⟨(create_message db s c u).1, by simp [create_message], ?_⟩
              cases he
              rfl
            · exact Or.inl he

/-- Witness for C7: a malformed frame is answered with an error event and
publishes nothing. -/
theorem frame_error_no_publish_witness :
    (processFrame w0 ⟨[], [], 0⟩ true 1 1 Frame.malformed =
      ({ w0 with log := Eff.wsDeliver 1 1 (OutEvent.error "Error processing your message") true :: w0.log },
        (⟨[], [], 0⟩ : DB), true)) ∧
    (∀ (f' : Frame) (wsOk : Bool) (c₁ : Nat) (e : OutEvent),
      Eff.publish c₁ e ∈ (processFrame w0 ⟨[], [], 0⟩ wsOk 1 1 f').1.log →
      Eff.publish c₁ e ∈ w0.log ∨
        ∃ m ∈ (processFrame w0 ⟨[], [], 0⟩ wsOk 1 1 f').2.1.messages,
          e = OutEvent.message ⟨m.id, m.content, m.sender_id, m.channel_id, m.status⟩) :=
  frame_error_no_publish w0 ⟨[], [], 0⟩ 1 1 Frame.malformed (Or.inl rfl)

/-- Claim C8: a connection attempt whose credential does not resolve to a
user, or whose user is not a member of the requested channel, is closed with
policy-violation code 1008 and nothing else happens: no session is
registered (`connect` is never reached), the registries, online set and
broker subscriptions are untouched, and the only effect performed is the
close. -/
theorem handshake_rejects_unauthorized (w : World) (db : DB) (authUser : Option Nat)
    (ws : WSocket) (c : Nat)
    (h : authUser = none ∨ ∃ u, authUser = some u ∧ notAuthorized db u c) :
    wsEndpointHandshake w db authUser ws c
      = ({ w with log := Eff.closeWS 1008 :: w.log }, none) := by
  rcases h with rfl | ⟨u, rfl, hna⟩
  · rfl
  · unfold wsEndpointHandshake websocket_auth
    unfold notAuthorized at hna
    cases hg : dget c db.channels with
    | none => simp [hg]
    | some members =>
        rw [hg] at hna
        simp [hg, hna]

/-- Witness for C8: user 5 is not a member of channel 1. -/
theorem handshake_rejects_unauthorized_witness :
    notAuthorized ⟨[(1, [1, 2])], [], 0⟩ 5 1 ∧
    wsEndpointHandshake w0 ⟨[(1, [1, 2])], [], 0⟩ (some 5) wsGood 1
      = ({ w0 with log := Eff.closeWS 1008 :: w0.log }, none) :=
  ⟨by decide,
    handshake_rejects_unauthorized w0 ⟨[(1, [1, 2])], [], 0⟩ (some 5) wsGood 1
      (Or.inr ⟨5, rfl, by decide⟩)⟩

/-- Claim C9 (amended): `create_message` always creates at status SENT, and
`mark_messages_as_read` only moves statuses forward (to READ, the top of
SENT → DELIVERED → READ); `update_message_status`, however, writes exactly
the requested status, so it moves statuses forward only when the requested
status ranks at least the current one — the operation itself does not
enforce monotonicity (see the counterexample, where it regresses READ to
SENT). -/
theorem status_forward_transitions (db : DB) :
    (∀ (s : String) (c u : Nat), (create_message db s c u).1.status = MessageStatus.sent) ∧
    (∀ cid uid, List.Forall₂
      (fun m m' : Msg => m.id = m'.id ∧ statusRank m.status ≤ statusRank m'.status)
      db.messages (mark_messages_as_read db cid uid).messages) ∧
    (∀ mid st, (∀ m ∈ db.messages, m.id = mid → statusRank m.status ≤ statusRank st) →
      List.Forall₂
        (fun m m' : Msg => m.id = m'.id ∧ statusRank m.status ≤ statusRank m'.status)
        db.messages (update_message_status db mid st).messages) := by
  refine ⟨fun _ _ _ => rfl, ?_, ?_⟩
  · intro cid uid
    unfold mark_messages_as_read
    simp only []
    rw [List.forall₂_map_right_iff]
    refine List.forall₂_same.mpr (fun m _ => ?_)
    by_cases hcond : (m.channel_id = cid && m.sender_id != uid && m.status != MessageStatus.read) = true
    · rw [if_pos hcond]
      refine ⟨rfl, ?_⟩
      cases m.status <;> simp [statusRank]
    · rw [if_neg hcond]
      exact ⟨rfl, le_refl _⟩
  · intro mid st h
    exact setFirst_forall₂ db.messages h

/-- Claim C9 counterexample: `update_message_status` called with SENT on a
READ message regresses the status from READ back to SENT. -/
theorem update_message_status_can_regress :
    (update_message_status ⟨[], [⟨1, "hi", 2, 3, MessageStatus.read⟩], 2⟩ 1
        MessageStatus.sent).messages = [⟨1, "hi", 2, 3, MessageStatus.sent⟩] ∧
    statusRank MessageStatus.sent < statusRank MessageStatus.read := by
  decide

/-- Witness for C9: the amended theorem applied to a one-message database,
with a forward `update_message_status` request. -/
theorem status_forward_transitions_witness :
    (create_message ⟨[], [⟨1, "a", 2, 3, MessageStatus.sent⟩], 2⟩ "b" 3 2).1.status
      = MessageStatus.sent ∧
    List.Forall₂ (fun m m' : Msg => m.id = m'.id ∧ statusRank m.status ≤ statusRank m'.status)
      (⟨[], [⟨1, "a", 2, 3, MessageStatus.sent⟩], 2⟩ : DB).messages
      (mark_messages_as_read ⟨[], [⟨1, "a", 2, 3, MessageStatus.sent⟩], 2⟩ 3 9).messages ∧
    List.Forall₂ (fun m m' : Msg => m.id = m'.id ∧ statusRank m.status ≤ statusRank m'.status)
      (⟨[], [⟨1, "a", 2, 3, MessageStatus.sent⟩], 2⟩ : DB).messages
      (update_message_status ⟨[], [⟨1, "a", 2, 3, MessageStatus.sent⟩], 2⟩ 1
        MessageStatus.read).messages :=
  ⟨(status_forward_transitions _).1 "b" 3 2,
    (status_forward_transitions _).2.1 3 9,
    (status_forward_transitions _).2.2 1 MessageStatus.read (by decide)⟩

/-- Claim C10: in every state reachable from the fresh manager by any
sequence of connect, disconnect, send and broadcast operations, the user
keys of `active_connections` and of `connection_status` coincide: `connect`
creates both rows together and `disconnect` deletes both together when the
user's last session goes. -/
theorem active_status_user_keys_align (ops : List Op) (u : Nat) :
    (dget u (runOps w0 ops).mgr.active).isSome = true ↔
    (dget u (runOps w0 ops).mgr.status).isSome = true := by
  obtain ⟨_, h1, h2⟩ := runOps_tidy_keyEq ops w0 ⟨by decide, by decide⟩
  constructor
  · intro h
    obtain ⟨chans, hact⟩ := Option.isSome_iff_exists.mp h
    exact h1 (u, chans) (dget_mem hact)
  · intro h
    obtain ⟨smap, hst⟩ := Option.isSome_iff_exists.mp h
    exact h2 (u, smap) (dget_mem hst)
